import Mathlib

/-!
Verification of the fwgnss stream-item extraction and decode pipeline.

Shallow embedding conventions used throughout this file:
* byte strings are modelled as List Nat (each element a byte value);
* Python text strings are likewise List Nat of character codes, since the
  code treats them as ASCII byte sequences;
* a Python function that can raise an exception is modelled with Except Unit
  (the .error case marks a raised exception) or with Option when the source
  returns None on failure;
* Python dictionaries are modelled either as association lists (when the
  source iterates over keys) or as functions to Option (when only lookup,
  store and delete are used);
* floating point field values never undergo arithmetic in the decoders
  modelled here (they are only converted, threaded and compared), so they
  are carried as Int values.
-/

namespace Fwgnss

/-! ## Item model (parse/generic.py, BaseItem) -/

/-- Model of generic.BaseItem after construction.  The slots parser, parsed,
parse error, decoded, decode error and charpos are opaque payloads here; only
their initialization matters for the item-model claims, so they are carried
as Option Nat. -/
structure BaseItem where
  data : List Nat
  length : Nat
  msgtype : Option Nat
  subtype : Option Nat
  parser : Option Nat
  parsed : Option Nat
  parse_error : Option Nat
  decoded : Option Nat
  decode_error : Option Nat
  charpos : Option Nat
deriving DecidableEq

/-- Python falsy-coalescing for the declared length argument: the source line
is length = length or len(data), where both None and 0 are falsy. -/
def lengthOrLen (length : Option Nat) (data : List Nat) : Nat :=
  match length with
  | none => data.length
  | some 0 => data.length
  | some n => n

/-- Model of generic.BaseItem.__init__ (called through Make on every item
class): stores data, falls back to len(data) for a falsy declared length, and
initializes all pipeline-stage slots and charpos to None. -/
def BaseItem.make (data : List Nat) (length : Option Nat)
    (msgtype subtype : Option Nat) : BaseItem :=
  { data := data
    length := lengthOrLen length data
    msgtype := msgtype
    subtype := subtype
    parser := none
    parsed := none
    parse_error := none
    decoded := none
    decode_error := none
    charpos := none }

/-! ## Extracter registry (parse/generic.py, AddExtracter / MergeExtracters) -/

/-- Python class objects that are registered as extractable item classes.
Only identity and the (absent) instance-of relation between them matter to
the registry code. -/
inductive PyClass where
  | comment
  | sentence
  | ubloxMsg
  | sirfMsg
  | oncoreMsg
  | other (n : Nat)
deriving DecidableEq

/-- The duplicate test in AddExtracter is the source line if ent[1] == cls.
Entries of extractables are (class, priority) pairs, so ent[1] is the stored
integer priority; an int never compares equal to a class object in Python,
hence the test is constantly false. -/
def entDupTest (ent : PyClass × Int) (cls : PyClass) : Bool :=
  let _ := ent
  let _ := cls
  false

/-- The override test in AddExtracter is the source line
isinstance(cls, ent[0]).  Here cls is itself a class object, and a class
object is an instance of type, never of another ordinary item class, so the
test is constantly false (the intended test was issubclass). -/
def entOverrideTest (cls : PyClass) (ent : PyClass × Int) : Bool :=
  let _ := ent
  let _ := cls
  false

/-- Outcome of the scan loop at the top of AddExtracter: either a duplicate
entry was found (the method returns without changes), or an overridden entry
was found and popped (rest is the list with it removed), or neither. -/
inductive ScanRes where
  | dup
  | overridden (rest : List (PyClass × Int))
  | clean
deriving DecidableEq

/-- The for-loop of AddExtracter: per entry the duplicate test runs first,
then the override test; the first entry satisfying either decides. -/
def scanExtractables (cls : PyClass) : List (PyClass × Int) → ScanRes
  | [] => .clean
  | ent :: rest =>
    if entDupTest ent cls then .dup
    else if entOverrideTest cls ent then .overridden rest
    else
      match scanExtractables cls rest with
      | .dup => .dup
      | .overridden r => .overridden (ent :: r)
      | .clean => .clean

/-- Registry state of an Extracter: the (class, priority) list and the bound
extracter list (represented by the classes whose Extract methods are bound;
only emptiness of extracters matters to AddExtracter). -/
structure Registry where
  extractables : List (PyClass × Int)
  extracters : List PyClass
deriving DecidableEq

/-- Model of Extracter.AddExtracter: scan for a duplicate or an overridden
entry, then append the new entry (or insert at the front while the initial
reversed-order registration phase is active, i.e. while extracters is
empty). -/
def addExtracter (r : Registry) (cls : PyClass) (prio : Int) : Registry :=
  let place := fun (l : List (PyClass × Int)) =>
    if r.extracters ≠ [] then l ++ [(cls, prio)] else (cls, prio) :: l
  match scanExtractables cls r.extractables with
  | .dup => r
  | .overridden rest => { r with extractables := place rest }
  | .clean => { r with extractables := place r.extractables }

/-- Descending stable sort key step used by BindExtracters (sorted by
priority, reverse=True, stable). -/
def bindExtracters (r : Registry) : Registry :=
  { r with extracters :=
      ((r.extractables.mergeSort (fun a b => b.2 ≤ a.2)).map Prod.fst) }

/-- Model of Extracter.MergeExtracters: fold the other registry through
AddExtracter, then rebuild the bound extracter list. -/
def mergeExtracters (r other : Registry) : Registry :=
  bindExtracters (other.extractables.foldl
    (fun acc ent => addExtracter acc ent.1 ent.2) r)

/-! ## The dispatch loop (parse/generic.py, Extracter.GetItems)

The recognizers registered with an Extracter are, per the source, functions
of the buffered line returning either (item, consumedBytes) or (None, 0).
They are modelled here as pure functions of the buffer.  The input source is
a list of lines as produced by readline: GetLine returns False exactly when
readline yields an empty byte string. -/

/-- An item yielded by the dispatch loop.  A recognized item carries the
value produced by the recognizer together with the slice of the stream it
consumed (recorded so that byte conservation can be stated) and the charpos
assigned by the loop; an err item is the error-span item made by
GetErrorItem from the skipped bytes. -/
inductive GItem (α : Type) where
  | err (data : List Nat) (charpos : Nat)
  | item (val : α) (bytes : List Nat) (charpos : Nat)
deriving DecidableEq

/-- Whether a yielded item is an error-span item. -/
def GItem.isErr {α : Type} : GItem α → Bool
  | .err _ _ => true
  | .item _ _ _ => false

/-- Model of Extracter.GetLine as called from the top of GetItems (where the
line buffer is empty): pull the next line; an empty line from readline
signals end of input and returns False. -/
def getLine (input : List (List Nat)) : Option (List Nat × List (List Nat)) :=
  match input with
  | [] => none
  | l :: rest => if l = [] then none else some (l, rest)

/-- The for-loop over self.extracters: try each recognizer in registry order
and stop at the first match. -/
def firstMatch {α : Type} :
    List (List Nat → Option (α × Nat)) → List Nat → Option (α × Nat)
  | [], _ => none
  | r :: rs, line =>
    match r line with
    | some x => some x
    | none => firstMatch rs line

/-- Model of the generator Extracter.GetItems, with the mutable extracter
state (input, line, charpos, skipped) passed explicitly and the yielded
items collected into a list.  The fuel argument bounds the number of loop
iterations; none is returned only when it runs out, and the main theorems
show any fuel above the stream measure suffices.  Each loop iteration:
refill an empty line buffer (ending the stream, after flushing a pending
error span, when GetLine fails); try the recognizers in order; on a match
flush the pending error span, then yield the item stamped with the current
charpos and drop the consumed bytes; otherwise divert exactly one byte to
the skipped accumulator and retry from the advanced position. -/
def getItems {α : Type} (recs : List (List Nat → Option (α × Nat))) :
    Nat → List (List Nat) → List Nat → Nat → List Nat →
    Option (List (GItem α))
  | 0, _, _, _, _ => none
  | fuel + 1, input, line, charpos, skipped =>
    if line = [] then
      match getLine input with
      | none => some (if skipped = [] then [] else [.err skipped charpos])
      | some (l, rest) => getItems recs fuel rest l charpos skipped
    else
      match firstMatch recs line with
      | some (a, c) =>
        (getItems recs fuel input (line.drop c) (charpos + c) []).map
          (fun out =>
            (if skipped = [] then [] else [GItem.err skipped charpos]) ++
              GItem.item a (line.take c) charpos :: out)
      | none =>
        getItems recs fuel input (line.drop 1) (charpos + 1)
          (skipped ++ line.take 1)

/-- The bytes of the stream covered by a list of yielded items, in order:
an error span contributes the skipped bytes it carries, a recognized item
the slice it consumed. -/
def itemsBytes {α : Type} : List (GItem α) → List Nat
  | [] => []
  | .err d _ :: rest => d ++ itemsBytes rest
  | .item _ b _ :: rest => b ++ itemsBytes rest

/-- Loop-iteration bound for a stream state: total pending bytes plus the
number of unread lines plus the current buffer length. -/
def streamMeasure (input : List (List Nat)) (line : List Nat) : Nat :=
  line.length + (input.map List.length).sum + input.length

/-- Correct charpos stamping for a list of yielded items whose first byte
sits at stream offset p: a recognized item is stamped with the offset of its
first byte, while an error span is stamped with the offset just past its
last byte (the loop advances charpos before the span is flushed). -/
def chposOk {α : Type} : Nat → List (GItem α) → Prop
  | _, [] => True
  | p, .err d cp :: rest => cp = p + d.length ∧ chposOk (p + d.length) rest
  | p, .item _ b cp :: rest => cp = p ∧ chposOk (p + b.length) rest

/-- A recognizer is well behaved when a match consumes at least one byte and
never more than the buffer holds; every recognizer in the repository has
this property. -/
def SoundRec {α : Type} (r : List Nat → Option (α × Nat)) : Prop :=
  ∀ l a c, r l = some (a, c) → 1 ≤ c ∧ c ≤ l.length

theorem firstMatch_sound {α : Type}
    {recs : List (List Nat → Option (α × Nat))}
    (h : ∀ r ∈ recs, SoundRec r) : SoundRec (firstMatch recs) := by
  induction recs with
  | nil => intro l a c hm; simp [firstMatch] at hm
  | cons r rs ih =>
    intro l a c hm
    simp only [firstMatch] at hm
    cases hr : r l with
    | some x =>
      rw [hr] at hm
      simp only [] at hm
      exact h r (by simp) l a c (by rw [hr]; exact hm)
    | none =>
      rw [hr] at hm
      simp only [] at hm
      exact ih (fun r hmem => h r (by simp [hmem])) l a c hm

theorem itemsBytes_append {α : Type} (xs ys : List (GItem α)) :
    itemsBytes (xs ++ ys) = itemsBytes xs ++ itemsBytes ys := by
  induction xs with
  | nil => simp [itemsBytes]
  | cons x xs ih => cases x <;> simp [itemsBytes, ih]

theorem chposOk_nil {α : Type} (p : Nat) : chposOk (α := α) p [] :=
  trivial

theorem chposOk_err {α : Type} (p : Nat) (d : List Nat) (cp : Nat)
    (rest : List (GItem α)) :
    chposOk p (.err d cp :: rest) ↔
      cp = p + d.length ∧ chposOk (p + d.length) rest :=
  Iff.rfl

theorem chposOk_item {α : Type} (p : Nat) (v : α) (b : List Nat) (cp : Nat)
    (rest : List (GItem α)) :
    chposOk p (.item v b cp :: rest) ↔
      cp = p ∧ chposOk (p + b.length) rest :=
  Iff.rfl

/-- Master invariant of the dispatch loop: started at stream offset p with
skipped bytes already accumulated (so self.charpos sits just past them), the
loop succeeds given enough fuel, yields items whose covered bytes are
exactly the pending skipped bytes followed by the rest of the stream, never
yields two error spans in a row, yields only nonempty error spans, and
stamps charpos as chposOk describes. -/
theorem getItems_run {α : Type} (recs : List (List Nat → Option (α × Nat)))
    (hrecs : ∀ r ∈ recs, SoundRec r) :
    ∀ (fuel : Nat) (input : List (List Nat)) (line : List Nat) (p : Nat)
      (skipped : List Nat),
      (∀ l ∈ input, l ≠ []) →
      streamMeasure input line < fuel →
      ∃ out,
        getItems recs fuel input line (p + skipped.length) skipped =
          some out ∧
        itemsBytes out = skipped ++ line ++ input.flatten ∧
        List.Chain' (fun a b => a.isErr = true → b.isErr = false) out ∧
        (∀ d cp, GItem.err d cp ∈ out → d ≠ []) ∧
        chposOk p out := by
  intro fuel
  induction fuel with
  | zero =>
    intro input line p skipped _ hm
    exact absurd hm (Nat.not_lt_zero _)
  | succ fuel ih =>
    intro input line p skipped hin hm
    by_cases hline : line = []
    · subst hline
      cases input with
      | nil =>
        refine ⟨if skipped = [] then [] else [.err skipped (p + skipped.length)],
          by simp [getItems, getLine], ?_, ?_, ?_, ?_⟩
        · by_cases hsk : skipped = [] <;> simp [hsk, itemsBytes]
        · by_cases hsk : skipped = [] <;> simp [hsk]
        · intro d cp hmem
          by_cases hsk : skipped = [] <;> simp [hsk] at hmem
          exact hmem.1 ▸ hsk
        · by_cases hsk : skipped = [] <;> simp [hsk, chposOk]
      | cons l rest =>
        have hl : l ≠ [] := hin l (by simp)
        have hm' : streamMeasure rest l < fuel := by
          simp [streamMeasure, List.map_cons, List.sum_cons] at hm ⊢
          omega
        obtain ⟨out, hrun, hbytes, hchain, herr, hcp⟩ :=
          ih rest l p skipped (fun x hx => hin x (by simp [hx])) hm'
        refine ⟨out, ?_, ?_, hchain, herr, hcp⟩
        · simpa [getItems, getLine, hl] using hrun
        · simpa using hbytes
    · have hne : line.length ≥ 1 := by
        cases line with
        | nil => exact absurd rfl hline
        | cons a l => simp
      cases hfm : firstMatch recs line with
      | some x =>
        obtain ⟨a, c⟩ := x
        obtain ⟨hc1, hc2⟩ := firstMatch_sound hrecs line a c hfm
        have hm' : streamMeasure input (line.drop c) < fuel := by
          simp only [streamMeasure, List.length_drop] at hm ⊢
          omega
        obtain ⟨out, hrun, hbytes, hchain, herr, hcp⟩ :=
          ih input (line.drop c) (p + skipped.length + c) [] hin hm'
        simp only [List.length_nil, Nat.add_zero] at hrun
        refine ⟨(if skipped = [] then [] else
            [GItem.err skipped (p + skipped.length)]) ++
            GItem.item a (line.take c) (p + skipped.length) :: out,
          ?_, ?_, ?_, ?_, ?_⟩
        · simp only [getItems, if_neg hline, hfm]
          rw [hrun]
          rfl
        · rw [itemsBytes_append]
          have hjoin : List.take c line ++ (List.drop c line ++ input.flatten) =
              line ++ input.flatten := by
            rw [← List.append_assoc, List.take_append_drop]
          by_cases hsk : skipped = [] <;>
            simp [hsk, itemsBytes, hbytes, hjoin]
        · have hitem : List.Chain'
              (fun x y => GItem.isErr x = true → GItem.isErr y = false)
              (GItem.item a (line.take c) (p + skipped.length) :: out) := by
            rw [List.chain'_cons']
            refine ⟨fun b _ => ?_, hchain⟩
            intro hko
            simp [GItem.isErr] at hko
          by_cases hsk : skipped = []
          · simpa [hsk] using hitem
          · rw [if_neg hsk, List.singleton_append, List.chain'_cons']
            refine ⟨fun b hb => ?_, hitem⟩
            intro _
            simp at hb
            simp [← hb, GItem.isErr]
        · intro d cp hmem
          by_cases hsk : skipped = [] <;> simp [hsk] at hmem
          · exact herr d cp hmem
          · rcases hmem with ⟨hd, _⟩ | hmem
            · exact hd ▸ hsk
            · exact herr d cp hmem
        · have hlen : (line.take c).length = c := by
            simp [List.length_take]
            omega
          by_cases hsk : skipped = []
          · subst hsk
            rw [if_pos rfl, List.nil_append, chposOk_item, hlen]
            simp only [List.length_nil, Nat.add_zero] at hcp
            exact ⟨by simp, hcp⟩
          · rw [if_neg hsk, List.singleton_append, chposOk_err]
            refine ⟨rfl, ?_⟩
            rw [chposOk_item, hlen]
            exact ⟨rfl, hcp⟩
      | none =>
        have hm' : streamMeasure input (line.drop 1) < fuel := by
          simp only [streamMeasure, List.length_drop] at hm ⊢
          omega
        have hlen1 : (skipped ++ line.take 1).length = skipped.length + 1 := by
          simp [List.length_take]
          omega
        obtain ⟨out, hrun, hbytes, hchain, herr, hcp⟩ :=
          ih input (line.drop 1) p (skipped ++ line.take 1) hin hm'
        rw [hlen1] at hrun
        refine ⟨out, ?_, ?_, hchain, herr, hcp⟩
        · simp only [getItems]
          rw [if_neg hline, hfm]
          rw [← Nat.add_assoc] at hrun
          exact hrun
        · rw [hbytes, List.append_assoc, List.append_assoc,
            ← List.append_assoc (line.take 1), List.take_append_drop,
            ← List.append_assoc]

/-- C1: the dispatch loop diverts exactly one byte per unmatched position
and surfaces every maximal unrecognized run as one error-span item.  For
every input stream (a nonempty-line source) and every sound recognizer
list, with fuel above the stream measure the loop terminates and yields
items whose covered bytes reassemble the entire stream in order (no byte
dropped), with no two error spans adjacent (each maximal run is one error
item, flushed right before the next recognized item or at end of input)
and every error span nonempty; moreover one loop step on an unmatched
nonempty buffer moves exactly the first byte into the skipped accumulator
and retries from the advanced position. -/
theorem claim_C1_dispatch (α : Type) (recs : List (List Nat → Option (α × Nat)))
    (hrecs : ∀ r ∈ recs, SoundRec r)
    (input : List (List Nat)) (line : List Nat) (fuel : Nat)
    (hin : ∀ l ∈ input, l ≠ [])
    (hfuel : streamMeasure input line < fuel) :
    (∃ out, getItems recs fuel input line 0 [] = some out ∧
       itemsBytes out = line ++ input.flatten ∧
       List.Chain' (fun a b => a.isErr = true → b.isErr = false) out ∧
       (∀ d cp, GItem.err d cp ∈ out → d ≠ [])) ∧
    (∀ (fuel2 : Nat) (input2 : List (List Nat)) (line2 : List Nat)
       (cp : Nat) (sk : List Nat), line2 ≠ [] →
       firstMatch recs line2 = none →
       getItems recs (fuel2 + 1) input2 line2 cp sk =
         getItems recs fuel2 input2 (line2.drop 1) (cp + 1)
           (sk ++ line2.take 1)) := by
  constructor
  · obtain ⟨out, hrun, hbytes, hchain, herr, _⟩ :=
      getItems_run recs hrecs fuel input line 0 [] hin hfuel
    exact ⟨out, by simpa using hrun, by simpa using hbytes, hchain, herr⟩
  · intro fuel2 input2 line2 cp sk hl2 hfm
    simp only [getItems]
    rw [if_neg hl2, hfm]

/-- A miniature recognizer used only in witness runs: it matches a buffer
whose first byte is 0 and consumes exactly that byte, producing the value
7. -/
def recZero : List Nat → Option (Nat × Nat)
  | 0 :: _ => some (7, 1)
  | _ => none

theorem recZero_sound : SoundRec recZero := by
  intro l a c h
  match l with
  | [] => simp [recZero] at h
  | 0 :: rest =>
    simp [recZero] at h
    simp [← h.2]
  | (n + 1) :: rest => simp [recZero] at h

/-- Witness for C1 at a concrete stream: two junk bytes then a recognized
byte. -/
theorem claim_C1_dispatch_witness :
    (∃ out, getItems [recZero] 10 [[1, 2, 0]] [] 0 [] = some out ∧
       itemsBytes out = [1, 2, 0] ∧
       List.Chain' (fun a b => a.isErr = true → b.isErr = false) out ∧
       (∀ d cp, GItem.err d cp ∈ out → d ≠ [])) ∧
    (∀ (fuel2 : Nat) (input2 : List (List Nat)) (line2 : List Nat)
       (cp : Nat) (sk : List Nat), line2 ≠ [] →
       firstMatch [recZero] line2 = none →
       getItems [recZero] (fuel2 + 1) input2 line2 cp sk =
         getItems [recZero] fuel2 input2 (line2.drop 1) (cp + 1)
           (sk ++ line2.take 1)) := by
  have h := claim_C1_dispatch Nat [recZero]
    (fun r hr => by
      simp at hr
      rw [hr]
      exact recZero_sound)
    [[1, 2, 0]] [] 10 (by decide) (by decide)
  simpa using h

/-- Counterexample to C9 as stated: in the stream 1, 0 read as one line, the
single skipped byte 1 forms an error span that began at offset 0, yet the
error-span item is stamped with charpos 1 (the loop advanced charpos past
the skipped byte before the span was flushed). -/
theorem claim_C9_counterexample :
    getItems [recZero] 10 [[1, 0]] [] 0 [] =
      some [GItem.err [1] 1, GItem.item 7 [0] 1] ∧ (1 : Nat) ≠ 0 := by
  exact ⟨by decide, by decide⟩

/-- C9 amended: every recognized item is stamped with the stream offset of
its first byte, while an error-span item is stamped with the offset just
past its span, i.e. the offset of the first skipped byte plus the length of
the span (equivalently, the offset where the following item begins).  The
chposOk predicate walks the yielded items from offset 0 and states exactly
this, grounded by the byte-conservation equation. -/
theorem claim_C9_charpos (α : Type) (recs : List (List Nat → Option (α × Nat)))
    (hrecs : ∀ r ∈ recs, SoundRec r)
    (input : List (List Nat)) (line : List Nat) (fuel : Nat)
    (hin : ∀ l ∈ input, l ≠ [])
    (hfuel : streamMeasure input line < fuel) :
    ∃ out, getItems recs fuel input line 0 [] = some out ∧
      itemsBytes out = line ++ input.flatten ∧
      chposOk 0 out := by
  obtain ⟨out, hrun, hbytes, _, _, hcp⟩ :=
    getItems_run recs hrecs fuel input line 0 [] hin hfuel
  exact ⟨out, by simpa using hrun, by simpa using hbytes, hcp⟩

/-- Witness for the amended C9 at the same concrete stream as the C9
counterexample. -/
theorem claim_C9_charpos_witness :
    ∃ out, getItems [recZero] 10 [[1, 0]] [] 0 [] = some out ∧
      itemsBytes out = [1, 0] ∧
      chposOk 0 out := by
  have h := claim_C9_charpos Nat [recZero]
    (fun r hr => by
      simp at hr
      rw [hr]
      exact recZero_sound)
    [[1, 0]] [] 10 (by decide) (by decide)
  simpa using h

/-! ## NMEA sentences (parse/nmea.py, Sentence.Extract / Sentence.Contents)

Character codes used below: 36 is the dollar start mark, 44 the comma
separator, 42 the asterisk checksum flag, 13 CR, 10 LF. -/

/-- Python endswith on byte strings. -/
def endsWith (l suf : List Nat) : Bool :=
  decide (l.drop (l.length - suf.length) = suf)

/-- Model of Extracter.GetEOL on a buffer that was not extended: test the
accepted EOL forms CRLF, LF, CR in that order against the end of the buffer
and return the line length without the EOL together with the EOL length
(zero for an unterminated line). -/
def getEOL (line : List Nat) : Nat × Nat :=
  if endsWith line [13, 10] then (line.length - 2, 2)
  else if endsWith line [10] then (line.length - 1, 1)
  else if endsWith line [13] then (line.length - 1, 1)
  else (line.length, 0)

/-- Model of Extracter.GetText: an ASCII decode that fails exactly when a
byte is out of ASCII range. -/
def getText (l : List Nat) : Option (List Nat) :=
  if l.all (fun c => c < 128) then some l else none

/-- XOR checksum (reduce of operator.xor over the bytes, initial 0), shared
by the NMEA and Oncore formats. -/
def xorBytes (l : List Nat) : Nat :=
  l.foldl Nat.xor 0

/-- Uppercase letter test for the sentence type pattern. -/
def isUpperCh (c : Nat) : Bool :=
  decide (65 ≤ c) && decide (c ≤ 90)

/-- Decimal digit test for the sentence type pattern. -/
def isDigitCh (c : Nat) : Bool :=
  decide (48 ≤ c) && decide (c ≤ 57)

/-- Model of re.match of the anchored type pattern (two to five uppercase
letters, then an optional digit, then end of string) against the first
field. -/
def typeMatch (s : List Nat) : Bool :=
  let m := (s.takeWhile isUpperCh).length
  let rest := s.drop m
  decide (2 ≤ m) && decide (m ≤ 5) &&
    (decide (rest = []) || (decide (rest.length = 1) && rest.all isDigitCh))

/-- str.upper on a single ASCII character code. -/
def toUpperCh (c : Nat) : Nat :=
  if 97 ≤ c ∧ c ≤ 122 then c - 32 else c

/-- Uppercase hexadecimal digit character for a value below 16 (as produced
by the format %02X). -/
def hexDigitU (n : Nat) : Nat :=
  if n < 10 then 48 + n else 55 + n

/-- Two-character uppercase hexadecimal rendering of a byte (format
%02X). -/
def hex2 (n : Nat) : List Nat :=
  [hexDigitU (n / 16), hexDigitU (n % 16)]

/-- Value of one hexadecimal digit character, either case. -/
def hexVal (c : Nat) : Option Nat :=
  if 48 ≤ c ∧ c ≤ 57 then some (c - 48)
  else if 65 ≤ c ∧ c ≤ 70 then some (c - 55)
  else if 97 ≤ c ∧ c ≤ 102 then some (c - 87)
  else none

/-- Parse of the two checksum characters by int(last[-2:], 16), modelled for
two-digit hexadecimal tokens; the Python call would additionally accept a
few degenerate two-character forms (a sign or space before one digit),
which no statement below exercises. -/
def parseHex2 (a b : Nat) : Option Nat :=
  match hexVal a, hexVal b with
  | some x, some y => some (16 * x + y)
  | _, _ => none

/-- Model of nmea.Sentence after extraction: the comma-split field list
(with the checksum token already removed from the final field when one was
present), the stored BaseItem length (None was passed, so it is the field
count), the uppercased type field and the checksum flag. -/
structure Sentence where
  data : List (List Nat)
  length : Nat
  msgtype : List Nat
  has_checksum : Bool
deriving DecidableEq

/-- Model of nmea.Sentence.Extract on the current buffer line: reject short
or unmarked lines, unterminated lines, non-ASCII bodies, bodies with fewer
than two fields or a first field not matching the type pattern; then detect
an optional trailing checksum token in the final field, verify it against
the XOR of the body bytes before the flag, and build the item, consuming
the line including its EOL. -/
def nmeaExtract (line : List Nat) : Option (Sentence × Nat) :=
  if line.length < 2 ∨ ¬ line.headD 0 = 36 then none
  else
    let le := getEOL line
    if le.2 = 0 then none
    else
      let bbody := (line.take le.1).drop 1
      match getText bbody with
      | none => none
      | some body =>
        if body = [] then none
        else
          let data := body.splitOn 44
          if data.length < 2 ∨ ¬ typeMatch (data.headD []) then none
          else
            let last := data.getLastD []
            if 3 ≤ last.length ∧ last.getD (last.length - 3) 0 = 42 then
              match parseHex2 (last.getD (last.length - 2) 0)
                  (last.getD (last.length - 1) 0) with
              | none => none
              | some checksum =>
                let data2 := data.dropLast ++ [last.take (last.length - 3)]
                let actual := xorBytes (bbody.take (bbody.length - 3))
                if ¬ actual = checksum then none
                else some (⟨data2, data2.length,
                  (data2.headD []).map toUpperCh, true⟩, le.1 + le.2)
            else some (⟨data, data.length,
              (data.headD []).map toUpperCh, false⟩, le.1 + le.2)

/-- Model of nmea.Sentence.Contents: rejoin the fields with commas and
rebuild the line in the canonical form, with a recomputed uppercase
checksum when the item had one and a CRLF EOL always. -/
def nmeaContents (s : Sentence) : List Nat :=
  let line := [44].intercalate s.data
  if s.has_checksum then
    36 :: line ++ 42 :: hex2 (xorBytes line) ++ [13, 10]
  else
    36 :: line ++ [13, 10]

theorem getEOL_line (body eol : List Nat) (h13 : (13 : Nat) ∉ body)
    (h10 : (10 : Nat) ∉ body)
    (heol : eol = [13, 10] ∨ eol = [10] ∨ eol = [13]) :
    getEOL (36 :: body ++ eol) = (body.length + 1, eol.length) := by
  have hdl : ∀ l₂ : List Nat,
      ((36 : Nat) :: body ++ l₂).drop (body.length + 1) = l₂ := by
    intro l₂
    have h := List.drop_left (36 :: body) l₂
    simpa using h
  rcases heol with h | h | h <;> subst h
  · have hlen : ((36 : Nat) :: body ++ [13, 10]).length = body.length + 3 := by
      simp
    have he : endsWith (36 :: body ++ [13, 10]) [13, 10] = true := by
      simp only [endsWith, decide_eq_true_eq, hlen]
      rw [show ([(13 : Nat), 10]).length = 2 from rfl,
        show body.length + 3 - 2 = body.length + 1 by omega]
      exact hdl _
    simp only [getEOL, he, if_true, hlen]
    rw [show ([(13 : Nat), 10]).length = 2 from rfl]
    simp
  · have hlen : ((36 : Nat) :: body ++ [10]).length = body.length + 2 := by
      simp
    have hne : endsWith (36 :: body ++ [10]) [13, 10] = false := by
      simp only [endsWith, decide_eq_false_iff_not]
      intro hdrop
      have hmem : (13 : Nat) ∈ (36 :: body ++ [10]).drop
          ((36 :: body ++ [10]).length - [13, 10].length) := by
        rw [hdrop]
        simp
      have h2 := List.drop_subset _ _ hmem
      simp at h2
      exact h13 h2
    have he : endsWith (36 :: body ++ [10]) [10] = true := by
      simp only [endsWith, decide_eq_true_eq, hlen]
      rw [show ([(10 : Nat)]).length = 1 from rfl,
        show body.length + 2 - 1 = body.length + 1 by omega]
      exact hdl _
    simp only [getEOL, hne, he, if_true, Bool.false_eq_true, if_false, hlen]
    rw [show ([(10 : Nat)]).length = 1 from rfl]
    simp
  · have hlen : ((36 : Nat) :: body ++ [13]).length = body.length + 2 := by
      simp
    have hne : endsWith (36 :: body ++ [13]) [13, 10] = false := by
      simp only [endsWith, decide_eq_false_iff_not]
      intro hdrop
      have hmem : (10 : Nat) ∈ (36 :: body ++ [13]).drop
          ((36 :: body ++ [13]).length - [13, 10].length) := by
        rw [hdrop]
        simp
      have h2 := List.drop_subset _ _ hmem
      simp at h2
      exact h10 h2
    have hnl : endsWith (36 :: body ++ [13]) [10] = false := by
      simp only [endsWith, decide_eq_false_iff_not, hlen]
      rw [show ([(10 : Nat)]).length = 1 from rfl,
        show body.length + 2 - 1 = body.length + 1 by omega, hdl]
      simp
    have he : endsWith (36 :: body ++ [13]) [13] = true := by
      simp only [endsWith, decide_eq_true_eq, hlen]
      rw [show ([(13 : Nat)]).length = 1 from rfl,
        show body.length + 2 - 1 = body.length + 1 by omega]
      exact hdl _
    simp only [getEOL, hne, hnl, he, if_true, Bool.false_eq_true, if_false,
      hlen]
    rw [show ([(13 : Nat)]).length = 1 from rfl]
    simp

theorem take_line_body (body eol : List Nat) :
    (((36 : Nat) :: body ++ eol).take (body.length + 1)).drop 1 = body := by
  have h : ((36 : Nat) :: body ++ eol).take (body.length + 1) = 36 :: body := by
    have h := List.take_left (36 :: body) eol
    simpa using h
  rw [h]
  rfl

theorem getLastD_of_ne_nil {l : List (List Nat)} (h : l ≠ []) :
    l.getLastD [] = l.getLast h := by
  rw [List.getLastD_eq_getLast?, List.getLast?_eq_getLast l h]
  rfl

/-- Computation of Sentence.Extract on a well-formed line whose final field
ends in an asterisk followed by two hexadecimal digit characters: the
sentence is produced exactly when the parsed token value equals the XOR of
the body bytes before the asterisk. -/
theorem nmeaExtract_token (body eol pre : List Nat) (d1 d2 v : Nat)
    (h13 : (13 : Nat) ∉ body) (h10 : (10 : Nat) ∉ body)
    (heol : eol = [13, 10] ∨ eol = [10] ∨ eol = [13])
    (hascii : ∀ c ∈ body, c < 128)
    (hf : 2 ≤ (body.splitOn 44).length)
    (htype : typeMatch ((body.splitOn 44).headD []) = true)
    (hlast : (body.splitOn 44).getLastD [] = pre ++ [42, d1, d2])
    (hv : parseHex2 d1 d2 = some v) :
    nmeaExtract (36 :: body ++ eol) =
      if v = xorBytes (body.take (body.length - 3)) then
        some (⟨(body.splitOn 44).dropLast ++ [pre],
          ((body.splitOn 44).dropLast ++ [pre]).length,
          (((body.splitOn 44).dropLast ++ [pre]).headD []).map toUpperCh,
          true⟩, body.length + 1 + eol.length)
      else none := by
  have hbody : body ≠ [] := by
    intro h
    subst h
    simp at hf
  have heollen : eol.length = 2 ∨ eol.length = 1 := by
    rcases heol with h | h | h <;> subst h <;> simp
  have hlen : (36 :: body ++ eol).length = body.length + 1 + eol.length := by
    simp
    omega
  have hc1 : ¬ ((36 :: body ++ eol).length < 2 ∨
      ¬ (36 :: body ++ eol).headD 0 = 36) := by
    push_neg
    refine ⟨?_, rfl⟩
    rw [hlen]
    omega
  have hgE : getEOL (36 :: body ++ eol) = (body.length + 1, eol.length) :=
    getEOL_line body eol h13 h10 heol
  have hgt : getText body = some body := by
    simp only [getText, List.all_eq_true, decide_eq_true_eq]
    rw [if_pos (fun c hc => hascii c hc)]
  have hlastlen : (pre ++ [42, d1, d2]).length = pre.length + 3 := by
    simp
  have hstar : (pre ++ [42, d1, d2]).getD
      ((pre ++ [42, d1, d2]).length - 3) 0 = 42 := by
    rw [hlastlen, show pre.length + 3 - 3 = pre.length by omega,
      List.getD_append_right _ _ _ _ (le_refl _)]
    simp
  have hd1 : (pre ++ [42, d1, d2]).getD
      ((pre ++ [42, d1, d2]).length - 2) 0 = d1 := by
    rw [hlastlen, show pre.length + 3 - 2 = pre.length + 1 by omega,
      List.getD_append_right _ _ _ _ (by omega)]
    simp
  have hd2 : (pre ++ [42, d1, d2]).getD
      ((pre ++ [42, d1, d2]).length - 1) 0 = d2 := by
    rw [hlastlen, show pre.length + 3 - 1 = pre.length + 2 by omega,
      List.getD_append_right _ _ _ _ (by omega)]
    simp
  have htakepre : (pre ++ [42, d1, d2]).take
      ((pre ++ [42, d1, d2]).length - 3) = pre := by
    rw [hlastlen, show pre.length + 3 - 3 = pre.length by omega]
    exact List.take_left pre _
  simp only [nmeaExtract]
  rw [if_neg hc1, hgE]
  simp only []
  rw [if_neg (by omega : ¬ eol.length = 0), take_line_body, hgt]
  simp only []
  rw [if_neg hbody,
    if_neg (by push_neg; exact ⟨hf, htype⟩ :
      ¬ ((body.splitOn 44).length < 2 ∨
        ¬ typeMatch ((body.splitOn 44).headD []) = true)),
    hlast,
    if_pos (⟨by rw [hlastlen]; omega, hstar⟩ :
      3 ≤ (pre ++ [42, d1, d2]).length ∧
        (pre ++ [42, d1, d2]).getD ((pre ++ [42, d1, d2]).length - 3) 0 = 42),
    hd1, hd2, hv]
  simp only []
  rw [htakepre]
  by_cases hck : xorBytes (body.take (body.length - 3)) = v
  · rw [if_neg (by simpa using hck), if_pos hck.symm]
  · rw [if_pos (by simpa using hck), if_neg (fun h => hck h.symm)]

/-- Computation of Sentence.Extract on a well-formed line whose final field
carries no checksum token: the sentence is produced with the raw field
list. -/
theorem nmeaExtract_plain (body eol : List Nat)
    (h13 : (13 : Nat) ∉ body) (h10 : (10 : Nat) ∉ body)
    (heol : eol = [13, 10] ∨ eol = [10] ∨ eol = [13])
    (hascii : ∀ c ∈ body, c < 128)
    (hf : 2 ≤ (body.splitOn 44).length)
    (htype : typeMatch ((body.splitOn 44).headD []) = true)
    (hnotok : ¬ (3 ≤ ((body.splitOn 44).getLastD []).length ∧
      ((body.splitOn 44).getLastD []).getD
        (((body.splitOn 44).getLastD []).length - 3) 0 = 42)) :
    nmeaExtract (36 :: body ++ eol) =
      some (⟨body.splitOn 44, (body.splitOn 44).length,
        ((body.splitOn 44).headD []).map toUpperCh, false⟩,
        body.length + 1 + eol.length) := by
  have hbody : body ≠ [] := by
    intro h
    subst h
    simp at hf
  have heollen : eol.length = 2 ∨ eol.length = 1 := by
    rcases heol with h | h | h <;> subst h <;> simp
  have hlen : (36 :: body ++ eol).length = body.length + 1 + eol.length := by
    simp
    omega
  have hc1 : ¬ ((36 :: body ++ eol).length < 2 ∨
      ¬ (36 :: body ++ eol).headD 0 = 36) := by
    push_neg
    refine ⟨?_, rfl⟩
    rw [hlen]
    omega
  have hgE : getEOL (36 :: body ++ eol) = (body.length + 1, eol.length) :=
    getEOL_line body eol h13 h10 heol
  have hgt : getText body = some body := by
    simp only [getText, List.all_eq_true, decide_eq_true_eq]
    rw [if_pos (fun c hc => hascii c hc)]
  simp only [nmeaExtract]
  rw [if_neg hc1, hgE]
  simp only []
  rw [if_neg (by omega : ¬ eol.length = 0), take_line_body, hgt]
  simp only []
  rw [if_neg hbody,
    if_neg (by push_neg; exact ⟨hf, htype⟩ :
      ¬ ((body.splitOn 44).length < 2 ∨
        ¬ typeMatch ((body.splitOn 44).headD []) = true)),
    if_neg hnotok]

/-- C6: a marked, EOL-terminated line whose final field ends in a checksum
token of two hexadecimal digit characters is extracted as a sentence if and
only if the token value equals the XOR of the body bytes before the
asterisk; on a mismatch the extracter returns None (consuming nothing), so
the bytes stay available to other recognizers and the error path. -/
theorem claim_C6_checksum_gate (body eol pre : List Nat) (d1 d2 v : Nat)
    (h13 : (13 : Nat) ∉ body) (h10 : (10 : Nat) ∉ body)
    (heol : eol = [13, 10] ∨ eol = [10] ∨ eol = [13])
    (hascii : ∀ c ∈ body, c < 128)
    (hf : 2 ≤ (body.splitOn 44).length)
    (htype : typeMatch ((body.splitOn 44).headD []) = true)
    (hlast : (body.splitOn 44).getLastD [] = pre ++ [42, d1, d2])
    (hv : parseHex2 d1 d2 = some v) :
    ((nmeaExtract (36 :: body ++ eol)).isSome ↔
      v = xorBytes (body.take (body.length - 3))) ∧
    (¬ v = xorBytes (body.take (body.length - 3)) →
      nmeaExtract (36 :: body ++ eol) = none) := by
  rw [nmeaExtract_token body eol pre d1 d2 v h13 h10 heol hascii hf htype
    hlast hv]
  by_cases h : v = xorBytes (body.take (body.length - 3)) <;> simp [h]

/-- Witness for C6 on the concrete sentence GPGGA,123 with checksum token
4A (the correct XOR) and CRLF ending. -/
theorem claim_C6_checksum_gate_witness :
    ((nmeaExtract (36 :: [71, 80, 71, 71, 65, 44, 49, 50, 51, 42, 52, 65]
        ++ [13, 10])).isSome ↔
      (74 : Nat) = xorBytes ([71, 80, 71, 71, 65, 44, 49, 50, 51, 42, 52,
        65].take ([71, 80, 71, 71, 65, 44, 49, 50, 51, 42, 52, 65].length
          - 3))) ∧
    (¬ (74 : Nat) = xorBytes ([71, 80, 71, 71, 65, 44, 49, 50, 51, 42, 52,
        65].take ([71, 80, 71, 71, 65, 44, 49, 50, 51, 42, 52, 65].length
          - 3)) →
      nmeaExtract (36 :: [71, 80, 71, 71, 65, 44, 49, 50, 51, 42, 52, 65]
        ++ [13, 10]) = none) :=
  claim_C6_checksum_gate
    [71, 80, 71, 71, 65, 44, 49, 50, 51, 42, 52, 65] [13, 10]
    [49, 50, 51] 52 65 74
    (by decide) (by decide) (Or.inl rfl) (by decide) (by decide) (by decide)
    (by decide) (by decide)

/-! ## Binary vendor messages (parse/sirf.py, parse/ublox.py,
parse/oncore.py)

The three Extract class methods can pull further lines from the reader
while assembling a frame; they are modelled on the current buffer plus the
list of further input lines.  A raised Python exception is an explicit
PyExn error value; a (None, 0) return is Except.ok none.  The safety bound
LENGTH_LIMIT referenced by all three methods is not defined anywhere under
src (only its uses appear); it is modelled from the spec: the configured
per-frame safety bound, carried as the limit parameter. -/

deriving instance DecidableEq for Except

/-- Python exceptions raised by the modelled methods. -/
inductive PyExn where
  | lengthError
  | typeError
  | indexError
  | structError
  | valueError
  | unicodeError
deriving DecidableEq

/-- Outcome of one evaluation of the header tests at the top of a binary
Extract while-loop: pull more input, give up, or proceed with the frame
length determined. -/
inductive FrameStep where
  | needMore
  | failed
  | done (len : Nat)
deriving DecidableEq

/-- The while-loop shared by the binary Extract methods: evaluate the step
on the buffer; on needMore pull one more line (an empty readline result,
i.e. end of input, abandons the candidate). -/
def frameLoop (step : List Nat → FrameStep) :
    List (List Nat) → List Nat → Option (List Nat × Nat)
  | more, line =>
    match step line, more with
    | .done len, _ => some (line, len)
    | .failed, _ => none
    | .needMore, [] => none
    | .needMore, l :: rest =>
      if l = [] then none else frameLoop step rest (line ++ l)

/-- Big-endian 16-bit value of two bytes. -/
def be16 (a b : Nat) : Nat := a * 256 + b

/-- Big-endian encoding of a 16-bit value (struct pattern H, big endian;
struct would raise on a value at or above 65536, a case no statement below
reaches). -/
def enc16BE (n : Nat) : List Nat := [n / 256, n % 256]

/-- Little-endian 16-bit value of two bytes. -/
def le16 (a b : Nat) : Nat := a + 256 * b

/-- The SiRF checksum: sum of the body masked to 15 bits. -/
def sirfChecksum (l : List Nat) : Nat := l.sum % 32768

/-- Model of sirf.Message after extraction. -/
structure SirfMsg where
  data : List Nat
  length : Nat
  msgtype : Nat
deriving DecidableEq

/-- Header tests of sirf.Message.Extract: fewer than four buffered bytes
make HEADER.unpack raise struct.error (caught: pull more input); a declared
length over the bound abandons the candidate; otherwise the frame needs
length plus overhead bytes. -/
def sirfStep (limit : Nat) (line : List Nat) : FrameStep :=
  if line.length < 4 then .needMore
  else
    let len := be16 (line.getD 2 0) (line.getD 3 0)
    if limit < len then .failed
    else if line.length < len + 8 then .needMore
    else .done len

/-- Model of sirf.Message.Extract: sync test, assembly loop, then body
slice, trailer unpack, checksum and end-marker verification; the message
type is the first body byte, which raises IndexError on an empty body. -/
def sirfExtract (limit : Nat) (line : List Nat) (more : List (List Nat)) :
    Except PyExn (Option (SirfMsg × Nat)) :=
  if ¬ line.take 2 = [160, 162] then .ok none
  else
    match frameLoop (sirfStep limit) more line with
    | none => .ok none
    | some (fline, len) =>
      let body := (fline.take (4 + len)).drop 4
      let cks := be16 (fline.getD (4 + len) 0) (fline.getD (5 + len) 0)
      let endm := [fline.getD (6 + len) 0, fline.getD (7 + len) 0]
      if ¬ sirfChecksum body = cks ∨ ¬ endm = [176, 179] then .ok none
      else
        match body with
        | [] => .error .indexError
        | t :: _ =>
          .ok (some (⟨body, lengthOrLen (some len) body, t⟩, len + 8))

/-- Model of sirf.Message.Contents: length consistency check (ValueError on
mismatch), then header, body and trailer are packed back together. -/
def sirfContents (m : SirfMsg) : Except PyExn (List Nat) :=
  if ¬ m.data.length = m.length then .error .valueError
  else .ok ([160, 162] ++ enc16BE m.length ++ m.data
    ++ enc16BE (sirfChecksum m.data) ++ [176, 179])

/-- Model of ublox.Message after extraction. -/
structure UbloxMsg where
  data : List Nat
  length : Nat
  msgtype : Nat
  subtype : Nat
deriving DecidableEq

/-- The u-Blox Fletcher-style checksum with modulus 256: two running
accumulators over the bytes, each masked at the end. -/
def ubloxChecksum (l : List Nat) : Nat × Nat :=
  let p := l.foldl (fun acc v => (acc.1 + v, acc.2 + (acc.1 + v))) (0, 0)
  (p.1 % 256, p.2 % 256)

/-- Header tests of ublox.Message.Extract: the six header bytes carry the
little-endian declared length at offsets four and five. -/
def ubloxStep (limit : Nat) (line : List Nat) : FrameStep :=
  if line.length < 6 then .needMore
  else
    let len := le16 (line.getD 4 0) (line.getD 5 0)
    if limit < len then .failed
    else if line.length < len + 8 then .needMore
    else .done len

/-- Model of ublox.Message.Extract: sync test, assembly loop, checksum over
type, subtype, length and body, then the two trailer bytes. -/
def ubloxExtract (limit : Nat) (line : List Nat) (more : List (List Nat)) :
    Except PyExn (Option (UbloxMsg × Nat)) :=
  if ¬ line.take 2 = [181, 98] then .ok none
  else
    match frameLoop (ubloxStep limit) more line with
    | none => .ok none
    | some (fline, len) =>
      let msgtype := fline.getD 2 0
      let subtype := fline.getD 3 0
      let cbody := (fline.take (6 + len)).drop 2
      let body := cbody.drop 4
      let cks := (fline.getD (6 + len) 0, fline.getD (7 + len) 0)
      if ¬ ubloxChecksum cbody = cks then .ok none
      else
        .ok (some (⟨body, lengthOrLen (some len) body, msgtype, subtype⟩,
          len + 8))

/-- Model of oncore.Message after extraction; the message type is the
two-character code after the sync. -/
structure OncoreMsg where
  data : List Nat
  length : Nat
  msgtype : List Nat
deriving DecidableEq

/-- Position of the first CRLF pair in a buffer (bytes.find of the end
marker; none when absent). -/
def findCRLF : List Nat → Option Nat
  | a :: b :: rest =>
    if a = 13 ∧ b = 10 then some 0
    else (findCRLF (b :: rest)).map (· + 1)
  | _ => none

/-- The break condition of the oncore assembly loop: the first CRLF
position, accepted only at or beyond the minimum frame offset. -/
def oncoreEndpos (line : List Nat) : Option Nat :=
  match findCRLF line with
  | some e => if 5 ≤ e then some e else none
  | none => none

/-- Step of the oncore assembly loop: break on an acceptable end marker,
abandon the candidate once the buffer exceeds the bound, otherwise pull
more input. -/
def oncoreStep (limit : Nat) (line : List Nat) : FrameStep :=
  match oncoreEndpos line with
  | some e => .done e
  | none => if limit < line.length then .failed else .needMore

/-- Model of oncore.Message.Extract: sync test, then the header unpack of
the type characters (outside any try block: fewer than four buffered bytes
raise struct.error), the end-marker search loop, trailer checksum
verification over sync-to-body, and the ASCII decode of the type (which
raises on non-ASCII type bytes). -/
def oncoreExtract (limit : Nat) (line : List Nat) (more : List (List Nat)) :
    Except PyExn (Option (OncoreMsg × Nat)) :=
  if ¬ line.take 2 = [64, 64] then .ok none
  else if line.length < 4 then .error .structError
  else
    let msgtype := [line.getD 2 0, line.getD 3 0]
    match frameLoop (oncoreStep limit) more line with
    | none => .ok none
    | some (fline, endpos) =>
      let cks := fline.getD (endpos - 1) 0
      let cbody := (fline.take (endpos - 1)).drop 2
      let body := cbody.drop 2
      if ¬ xorBytes cbody = cks then .ok none
      else if ¬ msgtype.all (fun c => c < 128) then .error .unicodeError
      else
        .ok (some (⟨body, lengthOrLen (some body.length) body, msgtype⟩,
          body.length + 7))

/-- Model of oncore.Message.Contents.  After the length-consistency check
(LengthError on mismatch) the source builds the trailer with
TRAILER.pack(*checksum); checksum is the plain integer returned by
Checksum, and star-unpacking an integer raises TypeError, so the method
never returns contents. -/
def oncoreContents (m : OncoreMsg) : Except PyExn (List Nat) :=
  if ¬ m.data.length = m.length then .error .lengthError
  else .error .typeError

/-- Counterexample to C7 as stated: an Oncore-sync buffer of length 7,
exceeding the bound 6, nevertheless extracts a message rather than
returning (None, 0), because its end marker is found before the bound
check is reached. -/
theorem claim_C7_counterexample :
    oncoreExtract 6 [64, 64, 65, 66, 3, 13, 10] [] =
      .ok (some (⟨[], 0, [65, 66]⟩, 7)) ∧
    6 < ([64, 64, 65, 66, 3, 13, 10] : List Nat).length :=
  ⟨by decide, by decide⟩

/-- C7 amended: for u-Blox and SiRF candidates whose sync matches and whose
declared length exceeds the bound, Extract returns (None, 0) without
raising; for Oncore the same holds when the buffer exceeds the bound while
no end marker has been found at or beyond the minimum offset (a frame
whose end marker is found is extracted normally regardless of the buffer
length, as the counterexample shows). -/
theorem claim_C7_length_guard :
    (∀ (limit : Nat) (line : List Nat) (more : List (List Nat)),
      line.take 2 = [181, 98] → 6 ≤ line.length →
      limit < le16 (line.getD 4 0) (line.getD 5 0) →
      ubloxExtract limit line more = .ok none) ∧
    (∀ (limit : Nat) (line : List Nat) (more : List (List Nat)),
      line.take 2 = [160, 162] → 4 ≤ line.length →
      limit < be16 (line.getD 2 0) (line.getD 3 0) →
      sirfExtract limit line more = .ok none) ∧
    (∀ (limit : Nat) (line : List Nat) (more : List (List Nat)),
      line.take 2 = [64, 64] → 4 ≤ line.length →
      oncoreEndpos line = none → limit < line.length →
      oncoreExtract limit line more = .ok none) := by
  refine ⟨?_, ?_, ?_⟩
  · intro limit line more h1 h2 h3
    have hstep : ubloxStep limit line = .failed := by
      simp only [ubloxStep]
      rw [if_neg (by omega), if_pos h3]
    have hloop : frameLoop (ubloxStep limit) more line = none := by
      cases more <;> simp [frameLoop, hstep]
    simp only [ubloxExtract]
    rw [if_neg (not_not_intro h1), hloop]
  · intro limit line more h1 h2 h3
    have hstep : sirfStep limit line = .failed := by
      simp only [sirfStep]
      rw [if_neg (by omega), if_pos h3]
    have hloop : frameLoop (sirfStep limit) more line = none := by
      cases more <;> simp [frameLoop, hstep]
    simp only [sirfExtract]
    rw [if_neg (not_not_intro h1), hloop]
  · intro limit line more h1 h2 hep h3
    have hstep : oncoreStep limit line = .failed := by
      simp only [oncoreStep, hep]
      rw [if_pos h3]
    have hloop : frameLoop (oncoreStep limit) more line = none := by
      cases more <;> simp [frameLoop, hstep]
    simp only [oncoreExtract]
    rw [if_neg (not_not_intro h1), if_neg (by omega), hloop]

/-- Witness for the amended C7 at concrete over-length candidates of each
format. -/
theorem claim_C7_length_guard_witness :
    ubloxExtract 5 [181, 98, 1, 2, 10, 0] [] = .ok none ∧
    sirfExtract 5 [160, 162, 1, 0] [] = .ok none ∧
    oncoreExtract 4 [64, 64, 65, 66, 67] [] = .ok none := by
  refine ⟨?_, ?_, ?_⟩
  · exact claim_C7_length_guard.1 5 [181, 98, 1, 2, 10, 0] []
      (by decide) (by decide) (by decide)
  · exact claim_C7_length_guard.2.1 5 [160, 162, 1, 0] []
      (by decide) (by decide) (by decide)
  · exact claim_C7_length_guard.2.2 4 [64, 64, 65, 66, 67] []
      (by decide) (by decide) (by decide) (by decide)

theorem be16_enc (n : Nat) : be16 (n / 256) (n % 256) = n := by
  have h := Nat.div_add_mod n 256
  simp only [be16]
  omega

theorem lengthOrLen_pos (n : Nat) (data : List Nat) (h : ¬ n = 0) :
    lengthOrLen (some n) data = n := by
  cases n with
  | zero => exact absurd rfl h
  | succ m => rfl

/-- Round trip of a well-formed SiRF frame with a nonempty body within the
length bound: Extract recovers the body, declared length and type byte,
consuming the whole frame, and Contents rebuilds the identical bytes. -/
theorem sirf_roundtrip (limit : Nat) (body : List Nat) (hne : body ≠ [])
    (hlim : body.length ≤ limit) :
    sirfExtract limit ([160, 162] ++ enc16BE body.length ++ body
        ++ enc16BE (sirfChecksum body) ++ [176, 179]) [] =
      .ok (some (⟨body, body.length, body.headD 0⟩, body.length + 8)) ∧
    sirfContents ⟨body, body.length, body.headD 0⟩ =
      .ok ([160, 162] ++ enc16BE body.length ++ body
        ++ enc16BE (sirfChecksum body) ++ [176, 179]) := by
  obtain ⟨t, rest, rfl⟩ := List.exists_cons_of_ne_nil hne
  constructor
  · set n := (t :: rest).length with hn
    set c := sirfChecksum (t :: rest) with hc
    have hA : ([160, 162] ++ enc16BE n ++ (t :: rest)
        ++ enc16BE c ++ [176, 179]) =
        (160 :: 162 :: (n / 256) :: (n % 256) :: (t :: rest)) ++
          [c / 256, c % 256, 176, 179] := by
      simp [enc16BE]
    have hlenA : (160 :: 162 :: (n / 256) :: (n % 256) :: (t :: rest)).length
        = 4 + n := by
      simp [hn]
      omega
    rw [hA]
    set A := 160 :: 162 :: (n / 256) :: (n % 256) :: (t :: rest) with hAdef
    set T := [c / 256, c % 256, 176, 179] with hT
    have hflen : (A ++ T).length = n + 8 := by
      simp [List.length_append, hlenA, hT]
      omega
    have hg2 : (A ++ T).getD 2 0 = n / 256 := by
      rw [hAdef]
      simp
    have hg3 : (A ++ T).getD 3 0 = n % 256 := by
      rw [hAdef]
      simp
    have hstep : sirfStep limit (A ++ T) = .done n := by
      simp only [sirfStep, hg2, hg3, be16_enc]
      rw [if_neg (by omega), if_neg (by omega), if_neg (by omega)]
    have hloop : frameLoop (sirfStep limit) [] (A ++ T) =
        some (A ++ T, n) := by
      simp [frameLoop, hstep]
    have htake : ((A ++ T).take (4 + n)).drop 4 = t :: rest := by
      rw [← hlenA, List.take_left, hAdef]
      rfl
    have hgetT : ∀ i : Nat, (A ++ T).getD (4 + n + i) 0 = T.getD i 0 := by
      intro i
      rw [← hlenA]
      rw [List.getD_append_right _ _ _ _ (by omega)]
      congr 1
      omega
    have hg4 : (A ++ T).getD (4 + n) 0 = c / 256 := by
      have h := hgetT 0
      simpa using h
    have hg5 : (A ++ T).getD (5 + n) 0 = c % 256 := by
      have h := hgetT 1
      rw [show 4 + n + 1 = 5 + n by omega] at h
      simpa [hT] using h
    have hg6 : (A ++ T).getD (6 + n) 0 = 176 := by
      have h := hgetT 2
      rw [show 4 + n + 2 = 6 + n by omega] at h
      simpa [hT] using h
    have hg7 : (A ++ T).getD (7 + n) 0 = 179 := by
      have h := hgetT 3
      rw [show 4 + n + 3 = 7 + n by omega] at h
      simpa [hT] using h
    have hsync : (A ++ T).take 2 = [160, 162] := by
      rw [hAdef]
      rfl
    simp only [sirfExtract]
    rw [if_neg (not_not_intro hsync), hloop]
    simp only [htake, hg4, hg5, hg6, hg7, be16_enc]
    rw [if_neg (by simp [hc])]
    rw [lengthOrLen_pos n (t :: rest) (by simp [hn])]
    rfl
  · simp [sirfContents]

theorem intercalate_cons2 (s : Nat) (a b : List Nat) (t : List (List Nat)) :
    [s].intercalate (a :: b :: t) = a ++ s :: [s].intercalate (b :: t) := by
  simp [List.intercalate, List.intersperse]

theorem intercalate_single (s : Nat) (a : List Nat) :
    [s].intercalate [a] = a := by
  simp [List.intercalate]

theorem intercalate_concat (s : Nat) (xs : List (List Nat)) (y : List Nat)
    (h : xs ≠ []) :
    [s].intercalate (xs ++ [y]) = [s].intercalate xs ++ s :: y := by
  induction xs with
  | nil => exact absurd rfl h
  | cons a t ih =>
    cases t with
    | nil =>
      rw [intercalate_single,
        show (([a] : List (List Nat)) ++ [y]) = [a, y] from rfl,
        intercalate_cons2, intercalate_single]
    | cons b t2 =>
      rw [show ((a :: b :: t2) ++ [y]) = a :: b :: (t2 ++ [y]) from rfl,
        intercalate_cons2,
        show (b :: (t2 ++ [y])) = (b :: t2) ++ [y] from rfl,
        ih (by simp), intercalate_cons2]
      simp

/-- Round trip of a checksummed sentence in canonical form (CRLF ending,
uppercase checksum token matching the body XOR): Extract consumes the line
and Contents rebuilds the identical bytes. -/
theorem nmea_roundtrip_token (body pre : List Nat) (d1 d2 v : Nat)
    (h13 : (13 : Nat) ∉ body) (h10 : (10 : Nat) ∉ body)
    (hascii : ∀ c ∈ body, c < 128)
    (hf : 2 ≤ (body.splitOn 44).length)
    (htype : typeMatch ((body.splitOn 44).headD []) = true)
    (hlast : (body.splitOn 44).getLastD [] = pre ++ [42, d1, d2])
    (hv : parseHex2 d1 d2 = some v)
    (hcks : v = xorBytes (body.take (body.length - 3)))
    (hhex : hex2 v = [d1, d2]) :
    nmeaExtract (36 :: body ++ [13, 10]) =
      some (⟨(body.splitOn 44).dropLast ++ [pre],
        ((body.splitOn 44).dropLast ++ [pre]).length,
        (((body.splitOn 44).dropLast ++ [pre]).headD []).map toUpperCh,
        true⟩, body.length + 3) ∧
    nmeaContents ⟨(body.splitOn 44).dropLast ++ [pre],
        ((body.splitOn 44).dropLast ++ [pre]).length,
        (((body.splitOn 44).dropLast ++ [pre]).headD []).map toUpperCh,
        true⟩ = 36 :: body ++ [13, 10] := by
  have hne : body.splitOn 44 ≠ [] := by
    intro h
    rw [h] at hf
    simp at hf
  have hinit : (body.splitOn 44).dropLast ≠ [] := by
    intro h
    have hlen := congrArg List.length h
    simp [List.length_dropLast] at hlen
    omega
  have hfields : (body.splitOn 44).dropLast ++ [pre ++ [42, d1, d2]] =
      body.splitOn 44 := by
    rw [← hlast, getLastD_of_ne_nil hne]
    exact List.dropLast_append_getLast hne
  have hbody : [44].intercalate (body.splitOn 44) = body :=
    List.intercalate_splitOn body 44
  have hbody2 : body = [44].intercalate ((body.splitOn 44).dropLast)
      ++ 44 :: (pre ++ [42, d1, d2]) := by
    conv_lhs => rw [← hbody, ← hfields]
    rw [intercalate_concat _ _ _ hinit]
  have hbody3 : body = ([44].intercalate ((body.splitOn 44).dropLast)
      ++ 44 :: pre) ++ [42, d1, d2] := by
    conv_lhs => rw [hbody2]
    simp
  have htake3 : body.take (body.length - 3) =
      [44].intercalate ((body.splitOn 44).dropLast) ++ 44 :: pre := by
    conv_lhs => rw [hbody3]
    rw [show (([44].intercalate ((body.splitOn 44).dropLast) ++ 44 :: pre)
        ++ [42, d1, d2]).length - 3 =
      ([44].intercalate ((body.splitOn 44).dropLast) ++ 44 :: pre).length
        by simp; omega]
    exact List.take_left _ _
  have hJ : [44].intercalate ((body.splitOn 44).dropLast ++ [pre]) =
      [44].intercalate ((body.splitOn 44).dropLast) ++ 44 :: pre :=
    intercalate_concat _ _ _ hinit
  constructor
  · rw [nmeaExtract_token body [13, 10] pre d1 d2 v h13 h10 (Or.inl rfl)
      hascii hf htype hlast hv, if_pos hcks]
    rw [show ([(13 : Nat), 10]).length = 2 from rfl,
      show body.length + 1 + 2 = body.length + 3 by omega]
  · simp only [nmeaContents, if_pos, hJ]
    rw [← htake3, ← hcks, hhex]
    rw [htake3]
    conv_rhs => rw [hbody3]
    simp

/-- Round trip of a sentence without a checksum token, in CRLF form. -/
theorem nmea_roundtrip_plain (body : List Nat)
    (h13 : (13 : Nat) ∉ body) (h10 : (10 : Nat) ∉ body)
    (hascii : ∀ c ∈ body, c < 128)
    (hf : 2 ≤ (body.splitOn 44).length)
    (htype : typeMatch ((body.splitOn 44).headD []) = true)
    (hnotok : ¬ (3 ≤ ((body.splitOn 44).getLastD []).length ∧
      ((body.splitOn 44).getLastD []).getD
        (((body.splitOn 44).getLastD []).length - 3) 0 = 42)) :
    nmeaExtract (36 :: body ++ [13, 10]) =
      some (⟨body.splitOn 44, (body.splitOn 44).length,
        ((body.splitOn 44).headD []).map toUpperCh, false⟩,
        body.length + 3) ∧
    nmeaContents ⟨body.splitOn 44, (body.splitOn 44).length,
        ((body.splitOn 44).headD []).map toUpperCh, false⟩ =
      36 :: body ++ [13, 10] := by
  constructor
  · rw [nmeaExtract_plain body [13, 10] h13 h10 (Or.inl rfl) hascii hf
      htype hnotok]
    rw [show ([(13 : Nat), 10]).length = 2 from rfl,
      show body.length + 1 + 2 = body.length + 3 by omega]
  · simp only [nmeaContents]
    rw [if_neg (by simp)]
    rw [List.intercalate_splitOn body 44]

/-- Counterexample to C5 as stated: three concrete well-formed frames whose
extract-then-Contents result is not byte identical to the input.  First, a
valid checksummed sentence terminated by a bare LF is extracted but
Contents rebuilds it with CRLF; second, the same sentence with its checksum
token in lowercase is extracted but Contents rebuilds the token in
uppercase; third, a valid Oncore frame is extracted but its Contents
raises (the trailer packing star-unpacks the integer checksum), so no
bytes are produced at all. -/
theorem claim_C5_counterexample :
    ((nmeaExtract [36, 71, 80, 71, 71, 65, 44, 49, 50, 51, 42, 52, 65, 10]
        ).map (fun p => nmeaContents p.1) =
      some [36, 71, 80, 71, 71, 65, 44, 49, 50, 51, 42, 52, 65, 13, 10] ∧
      [36, 71, 80, 71, 71, 65, 44, 49, 50, 51, 42, 52, 65, 13, 10] ≠
        [36, 71, 80, 71, 71, 65, 44, 49, 50, 51, 42, 52, 65, 10]) ∧
    ((nmeaExtract [36, 71, 80, 71, 71, 65, 44, 49, 50, 51, 42, 52, 97, 13,
        10]).map (fun p => nmeaContents p.1) =
      some [36, 71, 80, 71, 71, 65, 44, 49, 50, 51, 42, 52, 65, 13, 10] ∧
      [36, 71, 80, 71, 71, 65, 44, 49, 50, 51, 42, 52, 65, 13, 10] ≠
        [36, 71, 80, 71, 71, 65, 44, 49, 50, 51, 42, 52, 97, 13, 10]) ∧
    (oncoreExtract 500 [64, 64, 65, 98, 1, 34, 13, 10] [] =
      .ok (some (⟨[1], 1, [65, 98]⟩, 8)) ∧
      oncoreContents ⟨[1], 1, [65, 98]⟩ = .error .typeError) := by
  exact ⟨⟨by decide, by decide⟩, ⟨by decide, by decide⟩,
    ⟨by decide, by decide⟩⟩

/-- C5 amended: the round trip holds byte-identically for sentences and
frames in canonical form.  An NMEA sentence with CRLF ending round-trips,
whether its optional checksum token is present (in uppercase and matching)
or absent; other accepted EOL forms and lowercase checksum digits
reconstruct to the CRLF/uppercase canonical form instead (see the
counterexample).  A well-formed SiRF frame with a nonempty body within the
length bound round-trips byte-identically.  The Oncore Contents method
never returns bytes: it always raises (LengthError on an inconsistent item,
otherwise TypeError from the trailer packing), so Oncore frames do not
round-trip at all. -/
theorem claim_C5_roundtrip :
    (∀ (body pre : List Nat) (d1 d2 v : Nat),
      (13 : Nat) ∉ body → (10 : Nat) ∉ body →
      (∀ c ∈ body, c < 128) →
      2 ≤ (body.splitOn 44).length →
      typeMatch ((body.splitOn 44).headD []) = true →
      (body.splitOn 44).getLastD [] = pre ++ [42, d1, d2] →
      parseHex2 d1 d2 = some v →
      v = xorBytes (body.take (body.length - 3)) →
      hex2 v = [d1, d2] →
      ∃ s : Sentence, nmeaExtract (36 :: body ++ [13, 10]) =
          some (s, body.length + 3) ∧
        nmeaContents s = 36 :: body ++ [13, 10]) ∧
    (∀ body : List Nat,
      (13 : Nat) ∉ body → (10 : Nat) ∉ body →
      (∀ c ∈ body, c < 128) →
      2 ≤ (body.splitOn 44).length →
      typeMatch ((body.splitOn 44).headD []) = true →
      ¬ (3 ≤ ((body.splitOn 44).getLastD []).length ∧
        ((body.splitOn 44).getLastD []).getD
          (((body.splitOn 44).getLastD []).length - 3) 0 = 42) →
      ∃ s : Sentence, nmeaExtract (36 :: body ++ [13, 10]) =
          some (s, body.length + 3) ∧
        nmeaContents s = 36 :: body ++ [13, 10]) ∧
    (∀ (limit : Nat) (body : List Nat), body ≠ [] → body.length ≤ limit →
      ∃ m : SirfMsg,
        sirfExtract limit ([160, 162] ++ enc16BE body.length ++ body
          ++ enc16BE (sirfChecksum body) ++ [176, 179]) [] =
          .ok (some (m, body.length + 8)) ∧
        sirfContents m = .ok ([160, 162] ++ enc16BE body.length ++ body
          ++ enc16BE (sirfChecksum body) ++ [176, 179])) ∧
    (∀ m : OncoreMsg, ∃ e : PyExn, oncoreContents m = .error e) := by
  refine ⟨?_, ?_, ?_, ?_⟩
  · intro body pre d1 d2 v h13 h10 hascii hf htype hlast hv hcks hhex
    obtain ⟨h1, h2⟩ := nmea_roundtrip_token body pre d1 d2 v h13 h10
      hascii hf htype hlast hv hcks hhex
    exact ⟨_, h1, h2⟩
  · intro body h13 h10 hascii hf htype hnotok
    obtain ⟨h1, h2⟩ := nmea_roundtrip_plain body h13 h10 hascii hf htype
      hnotok
    exact ⟨_, h1, h2⟩
  · intro limit body hne hlim
    obtain ⟨h1, h2⟩ := sirf_roundtrip limit body hne hlim
    exact ⟨_, h1, h2⟩
  · intro m
    by_cases h : m.data.length = m.length
    · exact ⟨.typeError, by simp [oncoreContents, h]⟩
    · exact ⟨.lengthError, by simp [oncoreContents, h]⟩

/-- Witness for the amended C5, applying each round-trip part at one
concrete frame of the corresponding format. -/
theorem claim_C5_roundtrip_witness :
    (∃ s : Sentence,
      nmeaExtract (36 :: [71, 80, 71, 71, 65, 44, 49, 50, 51, 42, 52, 65]
          ++ [13, 10]) =
        some (s, [71, 80, 71, 71, 65, 44, 49, 50, 51, 42, 52,
          65].length + 3) ∧
      nmeaContents s = 36 :: [71, 80, 71, 71, 65, 44, 49, 50, 51, 42, 52,
        65] ++ [13, 10]) ∧
    (∃ s : Sentence,
      nmeaExtract (36 :: [71, 80, 71, 71, 65, 44, 49, 50, 51] ++ [13, 10]) =
        some (s, [71, 80, 71, 71, 65, 44, 49, 50, 51].length + 3) ∧
      nmeaContents s = 36 :: [71, 80, 71, 71, 65, 44, 49, 50, 51]
        ++ [13, 10]) ∧
    (∃ m : SirfMsg,
      sirfExtract 500 ([160, 162] ++ enc16BE [5].length ++ [5]
        ++ enc16BE (sirfChecksum [5]) ++ [176, 179]) [] =
        .ok (some (m, [5].length + 8)) ∧
      sirfContents m = .ok ([160, 162] ++ enc16BE [5].length ++ [5]
        ++ enc16BE (sirfChecksum [5]) ++ [176, 179])) ∧
    (∃ e : PyExn, oncoreContents ⟨[1], 1, [65, 98]⟩ = .error e) := by
  refine ⟨?_, ?_, ?_, ?_⟩
  · exact claim_C5_roundtrip.1 [71, 80, 71, 71, 65, 44, 49, 50, 51, 42, 52,
      65] [49, 50, 51] 52 65 74 (by decide) (by decide) (by decide)
      (by decide) (by decide) (by decide) (by decide) (by decide) (by decide)
  · exact claim_C5_roundtrip.2.1 [71, 80, 71, 71, 65, 44, 49, 50, 51]
      (by decide) (by decide) (by decide) (by decide) (by decide) (by decide)
  · exact claim_C5_roundtrip.2.2.1 500 [5] (by decide) (by decide)
  · exact claim_C5_roundtrip.2.2.2 ⟨[1], 1, [65, 98]⟩

/-- C10: constructing an item with a falsy declared length (None or 0)
stores the payload byte count as the item length, and every newly
constructed item has parser, parsed, parse error, decoded, decode error
and charpos initialized to None. -/
theorem claim_C10_item_init (data : List Nat) (msgtype subtype : Option Nat) :
    (BaseItem.make data none msgtype subtype).length = data.length ∧
    (BaseItem.make data (some 0) msgtype subtype).length = data.length ∧
    (∀ length : Option Nat,
      (BaseItem.make data length msgtype subtype).parser = none ∧
      (BaseItem.make data length msgtype subtype).parsed = none ∧
      (BaseItem.make data length msgtype subtype).parse_error = none ∧
      (BaseItem.make data length msgtype subtype).decoded = none ∧
      (BaseItem.make data length msgtype subtype).decode_error = none ∧
      (BaseItem.make data length msgtype subtype).charpos = none) :=
  ⟨rfl, rfl, fun _ => ⟨rfl, rfl, rfl, rfl, rfl, rfl⟩⟩

/-- C8 evaluated at the failing input: registering an already-registered
class appends a second identical entry instead of leaving the registry
unchanged, because the duplicate test of AddExtracter compares the stored
priority (ent[1]) with the class, which never matches; for the same reason,
the override test isinstance(cls, ent[0]) asks whether one class object is
an instance of the other, which is likewise never true, so an ancestor
entry is never removed.  Merging a registry into an identical one
duplicates the entry through the same path. -/
theorem claim_C8_registry_bug :
    (addExtracter ⟨[(.comment, 0)], [.comment]⟩ .comment 0).extractables =
      [(.comment, 0), (.comment, 0)] ∧
    (mergeExtracters ⟨[(.comment, 0)], [.comment]⟩
        ⟨[(.comment, 0)], [.comment]⟩).extractables =
      [(.comment, 0), (.comment, 0)] ∧
    (∀ (ent : PyClass × Int) (cls : PyClass),
      entDupTest ent cls = false ∧ entOverrideTest cls ent = false) :=
  ⟨by decide, by decide, fun _ _ => ⟨rfl, rfl⟩⟩

/-! ## NMEA decoder state and GSV view reassembly (parse/nmea.py,
NmeaDecoder.DecodeGSV)

Parsed sentence fields are strings; a field is modelled as empty, as a
string holding an integer value, or as unconvertible (int or float on it
raises ValueError).  The repository converts some fields with float; since
the decoders modelled here only convert, thread and compare those values,
they are carried as Int as well. -/

/-- A raw NMEA sentence field after structural parsing. -/
inductive Field where
  | empty
  | num (n : Int)
  | bad
deriving DecidableEq

/-- NmeaDecoder.DecodeInt: None for an empty field, the value otherwise,
ValueError on an unconvertible field. -/
def decodeInt : Field → Except PyExn (Option Int)
  | .empty => .ok none
  | .num n => .ok (some n)
  | .bad => .error .valueError

/-- A bare int(field) or float(field) conversion: ValueError on an empty or
unconvertible field. -/
def fieldInt : Field → Except PyExn Int
  | .empty => .error .valueError
  | .num n => .ok n
  | .bad => .error .valueError

/-- Python falsy-or over a decoded optional integer (value or default,
where both None and 0 are falsy). -/
def pyOrInt (o : Option Int) (d : Int) : Int :=
  match o with
  | none => d
  | some n => if n = 0 then d else n

/-- A clock time value as produced by the external xdatetime collaborator
(hour, minute, second, nanosecond). -/
structure Time where
  hour : Int
  minute : Int
  second : Int
  nanosecond : Int
deriving DecidableEq

/-- NmeaDecoder.DecodeSatNum on an integer satellite number: GPS type for
numbers up to 32, SBAS (with 87 added) up to 64, GLONASS (with 64
subtracted) beyond. -/
def decodeSatNum (num : Int) : Int × Int :=
  if num ≤ 32 then (0, num)
  else if num ≤ 64 then (1, num + 87)
  else (2, num - 64)

/-- A satellite view entry of a parsed GSV sentence (SAT_VIEW: sat, elev,
az, snr, all strings). -/
structure RawView where
  sat : Field
  elev : Field
  az : Field
  snr : Field
deriving DecidableEq

/-- A decoded satellite view entry (GSV_VIEW). -/
structure GsvView where
  sat : Int
  type : Int
  num : Int
  elev : Option Int
  az : Option Int
  snr : Option Int
deriving DecidableEq

/-- The per-view conversion MakeGSV_VIEW: the satellite number must
convert; elevation, azimuth and signal strength convert when nonempty,
else None. -/
def makeGsvView (s : RawView) : Except PyExn GsvView := do
  let sat ← fieldInt s.sat
  let tn := decodeSatNum sat
  let elev ← decodeInt s.elev
  let az ← decodeInt s.az
  let snr ← decodeInt s.snr
  pure ⟨sat, tn.1, tn.2, elev, az, snr⟩

/-- The combined decoded GSV record (DecGSV). -/
structure DecGSV where
  time : Option Time
  system : Int
  signal : Int
  in_view : Int
  tracked : Nat
  sat_views : List GsvView
deriving DecidableEq

/-- The DumpGSV builder: the tracked count is the number of views with a
signal-strength value. -/
def dumpGSV (time : Option Time) (system signal : Int) (in_view : Int)
    (sat_views : List GsvView) : DecGSV :=
  ⟨time, system, signal, in_view,
    sat_views.countP (fun s => s.snr.isSome), sat_views⟩

/-- Decode errors recorded on an item by the NMEA decoder functions.  The
message strings of the source are represented by the constructor and its
numeric payload; a GSV sequence error additionally carries the synthetic
partial record paired with it. -/
inductive NmeaDecErr where
  | garbled
  | badParams
  | badSatData
  | residualMismatch (sats vals : Nat)
  | gsvSeq (got expected : Int × Int × Int) (synthetic : DecGSV)
deriving DecidableEq

/-- An in-progress GSV accumulation entry: the mutable four-element list
[num_msgs, last msg_num, in_view, views]. -/
structure GsvEntry where
  numMsgs : Int
  lastMsg : Int
  inView : Int
  satViews : List GsvView
deriving DecidableEq

/-- A decoded GSA satellite entry (GSA_VIEW: sat, type, num). -/
structure GsaView where
  sat : Int
  type : Int
  num : Int
deriving DecidableEq

/-- Mutable decoder state (fields of the NmeaDecoder instance): the last
stored time and datetime, the GSA satellite-list cache per system, the GRS
residual cache per system and signal (an association list, since DecodeGSA
iterates its keys), the GSV accumulation map and its start timestamp. -/
structure DecState where
  lastTime : Option Time
  lastDtime : Option (Int × Time)
  lastGsa : List (Int × List GsaView)
  lastGrs : List (Int × List (Int × List Int))
  gsvDict : Int × Int → Option GsvEntry
  gsvTime : Option Time

/-- The parsed GSV sentence (ParseGSV fields). -/
structure ParsedGSV where
  num_msgs : Field
  msg_num : Field
  num_sats : Field
  sat_views : List RawView
  signal : Field
  system : Field
deriving DecidableEq

/-- Dictionary store d[key] = v (or deletion when v is none), modelled as
a pointwise update. -/
def dictUpd (d : Int × Int → Option GsvEntry) (key : Int × Int)
    (v : Option GsvEntry) : Int × Int → Option GsvEntry :=
  fun k => if k = key then v else d k

/-- The sequence bookkeeping of DecodeGSV shared between a found entry and
a freshly created one (the source stores a fresh initial entry in the
dictionary immediately, but every later path overwrites or deletes that
slot within the same call, so only the gsvTime capture is observable; the
caller passes st1 with it already captured).  On a total, sequence or
visible-count mismatch a decode error carrying the synthetic partial
record is produced, the accumulation is restarted from this message and
the timestamp is recaptured; then the message views are appended, and the
final message emits the combined record and clears the entry. -/
def gsvSeqLogic (sys sig N i V : Int) (views : List GsvView)
    (entry : GsvEntry) (st1 : DecState) :
    Option DecGSV × Option NmeaDecErr × DecState :=
  if ¬ N = entry.numMsgs ∨ ¬ i = entry.lastMsg + 1 ∨ ¬ V = entry.inView then
    let errData := dumpGSV st1.gsvTime sys sig
      (if entry.lastMsg = 0 then 0 else entry.inView) entry.satViews
    let err := NmeaDecErr.gsvSeq (N, i, V)
      (entry.numMsgs, entry.lastMsg + 1, entry.inView) errData
    let entry2 : GsvEntry := ⟨N, i, V, views⟩
    let st2 := { st1 with gsvTime := st1.lastTime }
    if ¬ i = N then
      (none, some err, { st2 with
        gsvDict := dictUpd st2.gsvDict (sys, sig) (some entry2) })
    else
      (some (dumpGSV st2.gsvTime sys sig entry2.inView entry2.satViews),
        some err, { st2 with
          gsvDict := dictUpd st2.gsvDict (sys, sig) none })
  else
    let entry2 : GsvEntry :=
      ⟨entry.numMsgs, i, entry.inView, entry.satViews ++ views⟩
    if ¬ i = N then
      (none, none, { st1 with
        gsvDict := dictUpd st1.gsvDict (sys, sig) (some entry2) })
    else
      (some (dumpGSV st1.gsvTime sys sig entry2.inView entry2.satViews),
        none, { st1 with
          gsvDict := dictUpd st1.gsvDict (sys, sig) none })

/-- Model of NmeaDecoder.DecodeGSV on a parsed sentence: field conversions
(any failure is a Garbled error), the parameter sanity test, the view
conversions (failure is a bad-satellite-data error), then the sequence
bookkeeping against the accumulation entry for the (system, signal) key,
creating a fresh entry (and capturing the timestamp) when none is
pending.  Returns the decoded record or None, the recorded decode error or
None, and the updated state. -/
def decodeGSV (p : ParsedGSV) (st : DecState) :
    Option DecGSV × Option NmeaDecErr × DecState :=
  match decodeInt p.signal, fieldInt p.num_sats, fieldInt p.system,
      fieldInt p.num_msgs, fieldInt p.msg_num with
  | .ok sigOpt, .ok in_view, .ok system, .ok num_msgs, .ok msg_num =>
    let signal := pyOrInt sigOpt 1
    if num_msgs < 1 ∨ msg_num < 1 ∨ in_view < 0 ∨ num_msgs < msg_num then
      (none, some .badParams, st)
    else
      match p.sat_views.mapM makeGsvView with
      | .error _ => (none, some .badSatData, st)
      | .ok sat_views =>
        match st.gsvDict (system, signal) with
        | some entry =>
          gsvSeqLogic system signal num_msgs msg_num in_view sat_views
            entry st
        | none =>
          gsvSeqLogic system signal num_msgs msg_num in_view sat_views
            ⟨num_msgs, 0, in_view, []⟩ { st with gsvTime := st.lastTime }
  | _, _, _, _, _ => (none, some .garbled, st)

/-- Iterated decoding of a list of parsed GSV sentences, collecting each
result and error pair. -/
def runGSV : List ParsedGSV → DecState →
    List (Option DecGSV × Option NmeaDecErr) × DecState
  | [], st => ([], st)
  | p :: rest, st =>
    let r := decodeGSV p st
    let q := runGSV rest r.2.2
    ((r.1, r.2.1) :: q.1, q.2)

/-- A GSV sentence whose header fields all converted from integers. -/
def gsvMsg (numMsgs msgNum inView system signal : Int)
    (views : List RawView) : ParsedGSV :=
  ⟨.num numMsgs, .num msgNum, .num inView, views, .num signal, .num system⟩

/-- The GSV sentences numbered j, j+1, ... carrying the given view lists,
all declaring the same totals. -/
def gsvMsgsFrom (N V sys sig : Int) : Int → List (List RawView) →
    List ParsedGSV
  | _, [] => []
  | j, r :: rest => gsvMsg N j V sys sig r :: gsvMsgsFrom N V sys sig (j + 1) rest

theorem pyOrInt_some_ne (n d : Int) (h : ¬ n = 0) :
    pyOrInt (some n) d = n := by
  simp [pyOrInt, h]

/-- Reduction of DecodeGSV on a sentence whose header fields converted and
passed the parameter test and whose views converted: the result is the
sequence bookkeeping applied to the pending entry, or to a fresh initial
entry with the timestamp captured. -/
theorem decodeGSV_run (sys sig N i V : Int) (raw : List RawView)
    (views : List GsvView) (st : DecState)
    (hsig : ¬ sig = 0)
    (hdec : raw.mapM makeGsvView = Except.ok views)
    (hN : 1 ≤ N) (hi : 1 ≤ i) (hV : 0 ≤ V) (hiN : i ≤ N) :
    decodeGSV (gsvMsg N i V sys sig raw) st =
      match st.gsvDict (sys, sig) with
      | some entry => gsvSeqLogic sys sig N i V views entry st
      | none => gsvSeqLogic sys sig N i V views ⟨N, 0, V, []⟩
          { st with gsvTime := st.lastTime } := by
  simp only [decodeGSV, gsvMsg, decodeInt, fieldInt]
  rw [pyOrInt_some_ne sig 1 hsig]
  rw [if_neg (by omega), hdec]

/-- The sequence bookkeeping when the message agrees with the pending
entry: views are appended, an intermediate message yields nothing, the
final message emits the combined record with the captured timestamp and
clears the entry. -/
theorem gsvSeqLogic_match (sys sig N i V : Int) (views : List GsvView)
    (entry : GsvEntry) (st1 : DecState)
    (h1 : N = entry.numMsgs) (h2 : i = entry.lastMsg + 1)
    (h3 : V = entry.inView) :
    gsvSeqLogic sys sig N i V views entry st1 =
      if i = N then
        (some (dumpGSV st1.gsvTime sys sig entry.inView
          (entry.satViews ++ views)), none,
          { st1 with gsvDict := dictUpd st1.gsvDict (sys, sig) none })
      else
        (none, none, { st1 with gsvDict := dictUpd st1.gsvDict (sys, sig) (some ⟨entry.numMsgs, i, entry.inView, entry.satViews ++ views⟩) }) := by
  simp only [gsvSeqLogic]
  rw [if_neg (by push_neg; exact ⟨h1, h2, h3⟩)]
  by_cases hiN : i = N
  · rw [if_neg (not_not_intro hiN), if_pos hiN]
  · rw [if_pos hiN, if_neg hiN]

/-- The sequence bookkeeping when the message disagrees with the pending
entry: a decode error carrying the synthetic partial record built from the
accumulated views is recorded, the accumulation restarts from this message
with the timestamp recaptured, and a message that declares itself final
still emits a record holding only its own views. -/
theorem gsvSeqLogic_mismatch (sys sig N i V : Int) (views : List GsvView)
    (entry : GsvEntry) (st1 : DecState)
    (hmm : ¬ (N = entry.numMsgs ∧ i = entry.lastMsg + 1 ∧
      V = entry.inView)) :
    gsvSeqLogic sys sig N i V views entry st1 =
      (if i = N then
        some (dumpGSV st1.lastTime sys sig V views)
      else none,
      some (NmeaDecErr.gsvSeq (N, i, V)
        (entry.numMsgs, entry.lastMsg + 1, entry.inView)
        (dumpGSV st1.gsvTime sys sig
          (if entry.lastMsg = 0 then 0 else entry.inView)
          entry.satViews)),
      if i = N then
        { st1 with gsvTime := st1.lastTime, gsvDict := dictUpd st1.gsvDict (sys, sig) none }
      else
        { st1 with gsvTime := st1.lastTime, gsvDict := dictUpd st1.gsvDict (sys, sig) (some ⟨N, i, V, views⟩) }) := by
  simp only [gsvSeqLogic]
  rw [if_pos (by tauto)]
  by_cases hiN : i = N
  · rw [if_neg (not_not_intro hiN), if_pos hiN, if_pos hiN]
  · rw [if_pos hiN, if_neg hiN, if_neg hiN]

/-- Core accumulation invariant of GSV reassembly: with a pending entry for
(sys, sig) holding views acc after message j, the in-sequence messages
numbered j+1 through N extend it in arrival order; every intermediate
message yields neither result nor error, the final message emits the
combined record with the timestamp captured when accumulation began, and
the entry is cleared while every other key and the stored time are
untouched. -/
theorem runGSV_accum (sys sig V : Int) (hsig : ¬ sig = 0) (hV : 0 ≤ V)
    (N : Int) (t0 : Option Time) :
    ∀ (ms : List (List RawView × List GsvView)) (j : Int) (st : DecState)
      (acc : List GsvView),
      ms ≠ [] →
      (∀ m ∈ ms, m.1.mapM makeGsvView = Except.ok m.2) →
      1 ≤ j → N = j + ms.length →
      st.gsvDict (sys, sig) = some ⟨N, j, V, acc⟩ →
      st.gsvTime = t0 →
      (runGSV (gsvMsgsFrom N V sys sig (j + 1) (ms.map Prod.fst)) st).1 =
        List.replicate (ms.length - 1) (none, none) ++
          [(some (dumpGSV t0 sys sig V
            (acc ++ (ms.map Prod.snd).flatten)), none)] ∧
      (runGSV (gsvMsgsFrom N V sys sig (j + 1)
        (ms.map Prod.fst)) st).2.gsvDict (sys, sig) = none ∧
      (∀ k, ¬ k = (sys, sig) →
        (runGSV (gsvMsgsFrom N V sys sig (j + 1)
          (ms.map Prod.fst)) st).2.gsvDict k = st.gsvDict k) ∧
      (runGSV (gsvMsgsFrom N V sys sig (j + 1)
        (ms.map Prod.fst)) st).2.lastTime = st.lastTime := by
  intro ms
  induction ms with
  | nil =>
    intro j st acc h
    exact absurd rfl h
  | cons m rest ih =>
    intro j st acc _ hdec hj hN hentry ht
    have hlen : ((m :: rest).length : Int) = rest.length + 1 := by
      push_cast
      simp
    have hdecm : m.1.mapM makeGsvView = Except.ok m.2 := hdec m (by simp)
    have hNbound : 1 ≤ N := by
      rw [hN, hlen]
      have : (0 : Int) ≤ rest.length := Int.ofNat_nonneg _
      omega
    have hrun := decodeGSV_run sys sig N (j + 1) V m.1 m.2 st hsig hdecm
      hNbound (by omega) hV (by
        rw [hN, hlen]
        have : (0 : Int) ≤ rest.length := Int.ofNat_nonneg _
        omega)
    rw [hentry] at hrun
    simp only [] at hrun
    rw [gsvSeqLogic_match sys sig N (j + 1) V m.2 ⟨N, j, V, acc⟩ st rfl rfl
      rfl] at hrun
    cases rest with
    | nil =>
      have hfin : j + 1 = N := by
        rw [hN, hlen]
        simp
      rw [if_pos hfin] at hrun
      refine ⟨?_, ?_, ?_, ?_⟩
      · simp only [List.map_cons, List.map_nil, gsvMsgsFrom, runGSV, hrun]
        simp [dumpGSV, ht]
      · simp only [List.map_cons, List.map_nil, gsvMsgsFrom, runGSV, hrun]
        simp [dictUpd]
      · intro k hk
        simp only [List.map_cons, List.map_nil, gsvMsgsFrom, runGSV, hrun]
        simp [dictUpd, hk]
      · simp only [List.map_cons, List.map_nil, gsvMsgsFrom, runGSV, hrun]
    | cons m2 rest2 =>
      have hmid : ¬ j + 1 = N := by
        rw [hN, hlen]
        have h0 : (1 : Int) ≤ ((m2 :: rest2).length : Int) := by
          simp
        omega
      rw [if_neg hmid] at hrun
      have hentry2 : ({ st with gsvDict := dictUpd st.gsvDict (sys, sig) (some ⟨N, j + 1, V, acc ++ m.2⟩) } : DecState).gsvDict (sys, sig) =
          some ⟨N, j + 1, V, acc ++ m.2⟩ := by
        simp [dictUpd]
      obtain ⟨ho, hd, ho2, hlt⟩ := ih (j + 1)
        { st with gsvDict := dictUpd st.gsvDict (sys, sig) (some ⟨N, j + 1, V, acc ++ m.2⟩) } (acc ++ m.2)
        (by simp) (fun x hx => hdec x (by simp [hx])) (by omega)
        (by
          rw [hN, hlen]
          push_cast
          simp
          omega)
        hentry2 ht
      refine ⟨?_, ?_, ?_, ?_⟩
      · simp only [List.map_cons, gsvMsgsFrom, runGSV, hrun]
        simp only [List.map_cons, gsvMsgsFrom, runGSV] at ho
        rw [ho]
        simp [List.replicate_succ, List.append_assoc]
      · simp only [List.map_cons, gsvMsgsFrom, runGSV, hrun]
        simp only [List.map_cons, gsvMsgsFrom, runGSV] at hd
        exact hd
      · intro k hk
        simp only [List.map_cons, gsvMsgsFrom, runGSV, hrun]
        simp only [List.map_cons, gsvMsgsFrom, runGSV] at ho2
        rw [ho2 k hk]
        simp [dictUpd, hk]
      · simp only [List.map_cons, gsvMsgsFrom, runGSV, hrun]
        simp only [List.map_cons, gsvMsgsFrom, runGSV] at hlt
        exact hlt

/-- C2: for a key with no pending accumulation, decoding GSV messages 1
through N with matching declared totals yields no result and no error for
messages 1 through N-1 and exactly one combined record on message N, whose
view list is the concatenation of the per-message views in arrival order,
whose in-view count is the declared total-visible value and whose
timestamp is the one captured when accumulation began; the pending entry
for the key is cleared and no other key is touched. -/
theorem claim_C2_gsv_reassembly (sys sig V : Int) (t0 : Option Time)
    (ms : List (List RawView × List GsvView)) (st : DecState)
    (hne : ms ≠ [])
    (hdec : ∀ m ∈ ms, m.1.mapM makeGsvView = Except.ok m.2)
    (hsig : ¬ sig = 0) (hV : 0 ≤ V)
    (hkey : st.gsvDict (sys, sig) = none)
    (ht : st.lastTime = t0) :
    (runGSV (gsvMsgsFrom (ms.length : Int) V sys sig 1
      (ms.map Prod.fst)) st).1 =
      List.replicate (ms.length - 1) (none, none) ++
        [(some (dumpGSV t0 sys sig V ((ms.map Prod.snd).flatten)), none)] ∧
    (runGSV (gsvMsgsFrom (ms.length : Int) V sys sig 1
      (ms.map Prod.fst)) st).2.gsvDict (sys, sig) = none ∧
    (∀ k, ¬ k = (sys, sig) →
      (runGSV (gsvMsgsFrom (ms.length : Int) V sys sig 1
        (ms.map Prod.fst)) st).2.gsvDict k = st.gsvDict k) := by
  cases ms with
  | nil => exact absurd rfl hne
  | cons m rest =>
    have hlen : (((m :: rest).length : Nat) : Int) = rest.length + 1 := by
      push_cast
      simp
    have hdecm : m.1.mapM makeGsvView = Except.ok m.2 := hdec m (by simp)
    have hNbound : 1 ≤ ((m :: rest).length : Int) := by
      rw [hlen]
      have : (0 : Int) ≤ rest.length := Int.ofNat_nonneg _
      omega
    have hrun := decodeGSV_run sys sig ((m :: rest).length : Int) 1 V m.1
      m.2 st hsig hdecm hNbound (by omega) hV hNbound
    rw [hkey] at hrun
    simp only [] at hrun
    rw [gsvSeqLogic_match sys sig ((m :: rest).length : Int) 1 V m.2
      ⟨((m :: rest).length : Int), 0, V, []⟩
      { st with gsvTime := st.lastTime } rfl (by norm_num) rfl] at hrun
    cases rest with
    | nil =>
      rw [if_pos (by rw [hlen]; norm_num)] at hrun
      simp only [List.map_cons, List.map_nil, gsvMsgsFrom, runGSV, hrun]
      refine ⟨?_, ?_, ?_⟩
      · simp [dumpGSV, ht]
      · simp [dictUpd]
      · intro k hk
        simp [dictUpd, hk]
    | cons m2 rest2 =>
      have hmid : ¬ (1 : Int) = ((m :: m2 :: rest2).length : Int) := by
        push_cast
        simp
        omega
      rw [if_neg hmid] at hrun
      have hentry2 : ({ { st with gsvTime := st.lastTime } with
          gsvDict := dictUpd ({ st with gsvTime := st.lastTime } : DecState).gsvDict (sys, sig) (some ⟨((m :: m2 :: rest2).length : Int), 1, V, [] ++ m.2⟩) } :
          DecState).gsvDict (sys, sig) =
          some ⟨((m :: m2 :: rest2).length : Int), 1, V, m.2⟩ := by
        simp [dictUpd]
      obtain ⟨ho, hd, ho2, _⟩ := runGSV_accum sys sig V hsig hV
        ((m :: m2 :: rest2).length : Int) t0 (m2 :: rest2) 1
        { { st with gsvTime := st.lastTime } with
          gsvDict := dictUpd ({ st with gsvTime := st.lastTime } : DecState).gsvDict (sys, sig) (some ⟨((m :: m2 :: rest2).length : Int), 1, V, [] ++ m.2⟩) }
        m.2 (by simp) (fun x hx => hdec x (by simp [hx])) (by omega)
        (by push_cast; simp; omega) hentry2 (by simp [ht])
      simp only [List.map_cons, gsvMsgsFrom, runGSV, hrun] at ho hd ho2 ⊢
      refine ⟨?_, hd, ?_⟩
      · rw [ho]
        simp [List.replicate_succ, List.append_assoc]
      · intro k hk
        rw [ho2 k hk]
        simp [dictUpd, hk]

/-- Concrete decoder state used in witness and counterexample runs. -/
def gsvTestState : DecState :=
  ⟨some ⟨0, 0, 0, 0⟩, none, [], [], fun _ => none, none⟩

/-- A raw view carrying only a satellite number. -/
def rawV (n : Int) : RawView := ⟨.num n, .empty, .empty, .empty⟩

/-- The decoded form of rawV. -/
def decV (n : Int) : GsvView := ⟨n, 0, n, none, none, none⟩

/-- Two GSV messages with one satellite each, used by the C2 witness. -/
def gsvWitMsgs : List (List RawView × List GsvView) :=
  [([rawV 1], [decV 1]), ([rawV 2], [decV 2])]

/-- Witness for C2 at a concrete two-message view sequence. -/
theorem claim_C2_gsv_reassembly_witness :
    (runGSV (gsvMsgsFrom (gsvWitMsgs.length : Int) 5 1 1 1
      (gsvWitMsgs.map Prod.fst)) gsvTestState).1 =
      List.replicate (gsvWitMsgs.length - 1) (none, none) ++
        [(some (dumpGSV (some ⟨0, 0, 0, 0⟩) 1 1 5
          ((gsvWitMsgs.map Prod.snd).flatten)), none)] ∧
    (runGSV (gsvMsgsFrom (gsvWitMsgs.length : Int) 5 1 1 1
      (gsvWitMsgs.map Prod.fst)) gsvTestState).2.gsvDict (1, 1) = none ∧
    (∀ k, ¬ k = (1, 1) →
      (runGSV (gsvMsgsFrom (gsvWitMsgs.length : Int) 5 1 1 1
        (gsvWitMsgs.map Prod.fst)) gsvTestState).2.gsvDict k =
        gsvTestState.gsvDict k) :=
  claim_C2_gsv_reassembly 1 1 5 (some ⟨0, 0, 0, 0⟩) gsvWitMsgs gsvTestState
    (by decide) (by decide) (by decide) (by decide) rfl rfl

/-- Counterexample to C3 as stated: in the three-message sequence whose
middle message declares total 4 instead of 3, the decode error appears
already on the second message, and the synthetic partial paired with the
error on the third message contains only the second message entries, not
the abandoned first two. -/
theorem claim_C3_counterexample :
    ((runGSV [gsvMsg 3 1 5 1 1 [rawV 1], gsvMsg 4 2 5 1 1 [rawV 2],
      gsvMsg 3 3 5 1 1 [rawV 3]] gsvTestState).1.getD 1
        (none, none)).2 ≠ none ∧
    ((runGSV [gsvMsg 3 1 5 1 1 [rawV 1], gsvMsg 4 2 5 1 1 [rawV 2],
      gsvMsg 3 3 5 1 1 [rawV 3]] gsvTestState).1.getD 2 (none, none)).2 =
      some (.gsvSeq (3, 3, 5) (4, 3, 5)
        (dumpGSV (some ⟨0, 0, 0, 0⟩) 1 1 5 [decV 2])) ∧
    [decV 2] ≠ [decV 1, decV 2] :=
  ⟨by decide, by decide, by decide⟩

/-- C3 amended: a GSV message whose declared totals or sequence number
disagree with the pending entry gets a decode error recorded, paired with
a synthetic partial record holding the satellite entries accumulated so
far, and the accumulation is discarded and restarted from that message
(cleared, when the message declares itself final, which then emits a
record holding only its own views); in the concrete sequence 1, 2, 3 with
the middle total replaced by 4, this produces the error on the second
message (partial: the first message entries) and again on the third
message (partial: the second message entries only), while iteration
continues and the third message emits a record with its own entries. -/
theorem claim_C3_gsv_sequence_error :
    (∀ (sys sig N i V : Int) (raw : List RawView) (views : List GsvView)
       (st : DecState) (entry : GsvEntry),
      ¬ sig = 0 → raw.mapM makeGsvView = Except.ok views →
      1 ≤ N → 1 ≤ i → 0 ≤ V → i ≤ N →
      st.gsvDict (sys, sig) = some entry →
      ¬ (N = entry.numMsgs ∧ i = entry.lastMsg + 1 ∧ V = entry.inView) →
      decodeGSV (gsvMsg N i V sys sig raw) st =
        (if i = N then some (dumpGSV st.lastTime sys sig V views) else none,
         some (NmeaDecErr.gsvSeq (N, i, V)
           (entry.numMsgs, entry.lastMsg + 1, entry.inView)
           (dumpGSV st.gsvTime sys sig
             (if entry.lastMsg = 0 then 0 else entry.inView)
             entry.satViews)),
         if i = N then
           { st with gsvTime := st.lastTime, gsvDict := dictUpd st.gsvDict (sys, sig) none }
         else
           { st with gsvTime := st.lastTime, gsvDict := dictUpd st.gsvDict (sys, sig) (some ⟨N, i, V, views⟩) })) ∧
    (runGSV [gsvMsg 3 1 5 1 1 [rawV 1], gsvMsg 4 2 5 1 1 [rawV 2],
      gsvMsg 3 3 5 1 1 [rawV 3]] gsvTestState).1 =
      [(none, none),
       (none, some (.gsvSeq (4, 2, 5) (3, 2, 5)
         (dumpGSV (some ⟨0, 0, 0, 0⟩) 1 1 5 [decV 1]))),
       (some (dumpGSV (some ⟨0, 0, 0, 0⟩) 1 1 5 [decV 3]),
        some (.gsvSeq (3, 3, 5) (4, 3, 5)
          (dumpGSV (some ⟨0, 0, 0, 0⟩) 1 1 5 [decV 2])))] := by
  constructor
  · intro sys sig N i V raw views st entry hsig hdec hN hi hV hiN hentry hmm
    rw [decodeGSV_run sys sig N i V raw views st hsig hdec hN hi hV hiN,
      hentry]
    simp only []
    rw [gsvSeqLogic_mismatch sys sig N i V views entry st hmm]
  · decide

/-- Witness for the amended C3, applying its general mismatch half at a
concrete state holding a pending entry that the message contradicts. -/
theorem claim_C3_gsv_sequence_error_witness :
    decodeGSV (gsvMsg 4 2 5 1 1 [rawV 2])
      { gsvTestState with gsvDict := dictUpd gsvTestState.gsvDict (1, 1) (some ⟨3, 1, 5, [decV 1]⟩), gsvTime := some ⟨0, 0, 0, 0⟩ } =
      (none,
       some (NmeaDecErr.gsvSeq (4, 2, 5) (3, 2, 5)
         (dumpGSV (some ⟨0, 0, 0, 0⟩) 1 1 5 [decV 1])),
       { ({ gsvTestState with gsvDict := dictUpd gsvTestState.gsvDict (1, 1) (some ⟨3, 1, 5, [decV 1]⟩), gsvTime := some ⟨0, 0, 0, 0⟩ } : DecState) with
         gsvTime := some ⟨0, 0, 0, 0⟩,
         gsvDict := dictUpd (dictUpd gsvTestState.gsvDict (1, 1) (some ⟨3, 1, 5, [decV 1]⟩)) (1, 1) (some ⟨4, 2, 5, [decV 2]⟩) }) := by
  have h := claim_C3_gsv_sequence_error.1 1 1 4 2 5 [rawV 2] [decV 2]
    { gsvTestState with gsvDict := dictUpd gsvTestState.gsvDict (1, 1) (some ⟨3, 1, 5, [decV 1]⟩), gsvTime := some ⟨0, 0, 0, 0⟩ }
    ⟨3, 1, 5, [decV 1]⟩ (by decide) (by decide) (by decide) (by decide)
    (by decide) (by decide) (by simp [dictUpd]) (by decide)
  rw [h]
  rfl

/-! ## GSA / GRS residual correlation (parse/nmea.py, NmeaDecoder.DecodeGSA
and NmeaDecoder.DecodeGRS) -/

/-- A decoded satellite residual (SatResidual: sat, type, num, value). -/
structure SatResidual where
  sat : Int
  type : Int
  num : Int
  value : Int
deriving DecidableEq

/-- MakeResiduals on one zipped (satellite entry, residual value) pair. -/
def mkResidual (sv : GsaView) (v : Int) : SatResidual :=
  ⟨sv.sat, sv.type, sv.num, v⟩

/-- MakeGSA_VIEW on one satellite number field. -/
def makeGsaView (f : Field) : Except PyExn GsaView := do
  let sat ← fieldInt f
  let tn := decodeSatNum sat
  pure ⟨sat, tn.1, tn.2⟩

/-- Lookup in an integer-keyed association list (dict.get). -/
def alookupI {β : Type} (k : Int) : List (Int × β) → Option β
  | [] => none
  | (k2, v) :: rest => if k2 = k then some v else alookupI k rest

/-- Store in an integer-keyed association list (dict assignment: replace in
place or append). -/
def ainsertI {β : Type} (k : Int) (v : β) : List (Int × β) → List (Int × β)
  | [] => [(k, v)]
  | (k2, v2) :: rest =>
    if k2 = k then (k2, v) :: rest else (k2, v2) :: ainsertI k v rest

/-- Ascending insertion used to model sorted() over the signal keys. -/
def insortKey (x : Int) : List Int → List Int
  | [] => [x]
  | y :: r => if x ≤ y then x :: y :: r else y :: insortKey x r

/-- The sorted signal-key list of the cached residual dictionary. -/
def sortKeys (l : List Int) : List Int := l.foldr insortKey []

/-- The parsed GSA sentence (ParseGSA fields; sat_list holds only the
nonempty fields, as the structural parser filters the empty ones). -/
structure ParsedGSA where
  acq_mode : Field
  pos_mode : Field
  sat_list : List Field
  pdop : Field
  hdop : Field
  vdop : Field
  system : Field
deriving DecidableEq

/-- The decoded GSA record (DecGSA). -/
structure DecGSA where
  acq_mode : Field
  pos_mode : Int
  sat_list : List GsaView
  pdop : Option Int
  hdop : Option Int
  vdop : Option Int
  system : Int
  sig_residuals : List (Int × List SatResidual)
deriving DecidableEq

/-- The pairing loop of DecodeGSA over the sorted signal keys: each cached
residual list is zipped against this sentence satellite list, recording a
mismatch error (the last one written wins, as with repeated attribute
assignment) while still producing the best-effort pairs. -/
def gsaPairLoop (satList : List GsaView) (grsDict : List (Int × List Int)) :
    List Int → Option NmeaDecErr →
    List (Int × List SatResidual) × Option NmeaDecErr
  | [], err => ([], err)
  | sig :: rest, err =>
    match alookupI sig grsDict with
    | none => gsaPairLoop satList grsDict rest err
    | some residuals =>
      let err2 := if ¬ residuals.length = satList.length then
          some (NmeaDecErr.residualMismatch satList.length residuals.length)
        else err
      let q := gsaPairLoop satList grsDict rest err2
      ((sig, List.zipWith mkResidual satList residuals) :: q.1, q.2)

/-- Model of NmeaDecoder.DecodeGSA: header conversions (Garbled on
failure), satellite list conversion (bad-satellite-data on failure); then,
when a nonempty residual cache exists for the system, the pairing is
performed over its sorted signal keys without touching the caches;
otherwise the satellite list is stored in the GSA cache. -/
def decodeGSA (p : ParsedGSA) (st : DecState) :
    Option DecGSA × Option NmeaDecErr × DecState :=
  match decodeInt p.system, fieldInt p.pos_mode, decodeInt p.pdop,
      decodeInt p.hdop, decodeInt p.vdop with
  | .ok sysOpt, .ok pos_mode, .ok pdop, .ok hdop, .ok vdop =>
    let system := pyOrInt sysOpt 1
    match p.sat_list.mapM makeGsaView with
    | .error _ => (none, some .badSatData, st)
    | .ok sat_list =>
      match alookupI system st.lastGrs with
      | some grsDict =>
        if ¬ grsDict = [] then
          let q := gsaPairLoop sat_list grsDict
            (sortKeys (grsDict.map Prod.fst)) none
          (some ⟨p.acq_mode, pos_mode, sat_list, pdop, hdop, vdop, system,
            q.1⟩, q.2, st)
        else
          (some ⟨p.acq_mode, pos_mode, sat_list, pdop, hdop, vdop, system,
            []⟩, none,
            { st with lastGsa := ainsertI system sat_list st.lastGsa })
      | none =>
        (some ⟨p.acq_mode, pos_mode, sat_list, pdop, hdop, vdop, system,
          []⟩, none,
          { st with lastGsa := ainsertI system sat_list st.lastGsa })
  | _, _, _, _, _ => (none, some .garbled, st)

/-- A parsed time field: either the four components the source slices out
of hhmmss.fff, or an unconvertible string. -/
inductive TField where
  | good (hour minute second nanosecond : Int)
  | bad
deriving DecidableEq

/-- The parsed GRS sentence (ParseGRS fields). -/
structure ParsedGRS where
  time : TField
  mode : Field
  residuals : List Field
  system : Field
  signal : Field
deriving DecidableEq

/-- Refreshing the time part of a stored datetime, as DecodeGRS does when
a datetime is already pending while a new time arrives. -/
def dtRefresh (o : Option (Int × Time)) (t : Time) : Option (Int × Time) :=
  match o with
  | none => none
  | some dt => some (dt.1, t)

/-- The decoded GRS record (DecGRS). -/
structure DecGRS where
  time : Time
  mode : Int
  residuals : List Int
  system : Int
  signal : Int
  sat_residuals : Option (List SatResidual)
deriving DecidableEq

/-- Model of NmeaDecoder.DecodeGRS: the time decode (returning None on an
unconvertible field, otherwise storing the time, with the time part of a
stored datetime refreshed); the remaining conversions (Garbled on
failure); the setdefault that materializes an empty residual dictionary
for the system; then pairing against a nonempty cached satellite list
(recording a length-mismatch error while still pairing best effort), or
caching the residuals under the signal when no satellite list is
pending. -/
def decodeGRS (p : ParsedGRS) (st : DecState) :
    Option DecGRS × Option NmeaDecErr × DecState :=
  match p.time with
  | .bad => (none, none, st)
  | .good h m s ns =>
    let time : Time := ⟨h, m, s, ns⟩
    let st1 := { st with lastTime := some time, lastDtime := dtRefresh st.lastDtime time }
    match decodeInt p.system, decodeInt p.signal, fieldInt p.mode,
        p.residuals.mapM fieldInt with
    | .ok sysOpt, .ok sigOpt, .ok mode, .ok residuals =>
      let system := pyOrInt sysOpt 1
      let signal := pyOrInt sigOpt 1
      let grsDict := (alookupI system st1.lastGrs).getD []
      let st2 := match alookupI system st1.lastGrs with
        | some _ => st1
        | none => { st1 with lastGrs := ainsertI system [] st1.lastGrs }
      match alookupI system st2.lastGsa with
      | some satList =>
        if ¬ satList = [] then
          let err := if ¬ satList.length = residuals.length then
              some (NmeaDecErr.residualMismatch satList.length
                residuals.length)
            else none
          (some ⟨time, mode, residuals, system, signal,
            some (List.zipWith mkResidual satList residuals)⟩, err, st2)
        else
          (some ⟨time, mode, residuals, system, signal, none⟩, none,
            { st2 with lastGrs := ainsertI system (ainsertI signal residuals grsDict) st2.lastGrs })
      | none =>
        (some ⟨time, mode, residuals, system, signal, none⟩, none,
          { st2 with lastGrs := ainsertI system (ainsertI signal residuals grsDict) st2.lastGrs })
    | _, _, _, _ => (none, some .garbled, st1)

theorem alookupI_ainsertI_self {β : Type} (k : Int) (v : β)
    (l : List (Int × β)) : alookupI k (ainsertI k v l) = some v := by
  induction l with
  | nil => simp [ainsertI, alookupI]
  | cons p rest ih =>
    obtain ⟨k2, v2⟩ := p
    by_cases h : k2 = k
    · simp [ainsertI, alookupI, h]
    · simp [ainsertI, alookupI, h, ih]

theorem decodeGSA_store (p : ParsedGSA) (st : DecState) (sys posm : Int)
    (pd hd vd : Option Int) (sl : List GsaView)
    (hsys : decodeInt p.system = Except.ok (some sys)) (hsys0 : ¬ sys = 0)
    (hpos : fieldInt p.pos_mode = Except.ok posm)
    (hpd : decodeInt p.pdop = Except.ok pd)
    (hhd : decodeInt p.hdop = Except.ok hd)
    (hvd : decodeInt p.vdop = Except.ok vd)
    (hsat : p.sat_list.mapM makeGsaView = Except.ok sl)
    (hGrs : alookupI sys st.lastGrs = none) :
    decodeGSA p st = (some ⟨p.acq_mode, posm, sl, pd, hd, vd, sys, []⟩,
      none, { st with lastGsa := ainsertI sys sl st.lastGsa }) := by
  simp only [decodeGSA, hsys, hpos, hpd, hhd, hvd]
  rw [pyOrInt_some_ne sys 1 hsys0, hsat, hGrs]

theorem decodeGSA_pair (p : ParsedGSA) (st : DecState) (sys sig posm : Int)
    (pd hd vd : Option Int) (sl : List GsaView) (rs : List Int)
    (hsys : decodeInt p.system = Except.ok (some sys)) (hsys0 : ¬ sys = 0)
    (hpos : fieldInt p.pos_mode = Except.ok posm)
    (hpd : decodeInt p.pdop = Except.ok pd)
    (hhd : decodeInt p.hdop = Except.ok hd)
    (hvd : decodeInt p.vdop = Except.ok vd)
    (hsat : p.sat_list.mapM makeGsaView = Except.ok sl)
    (hGrs : alookupI sys st.lastGrs = some [(sig, rs)])
    (hlen : rs.length = sl.length) :
    decodeGSA p st = (some ⟨p.acq_mode, posm, sl, pd, hd, vd, sys,
      [(sig, List.zipWith mkResidual sl rs)]⟩, none, st) := by
  simp only [decodeGSA, hsys, hpos, hpd, hhd, hvd]
  rw [pyOrInt_some_ne sys 1 hsys0, hsat, hGrs]
  simp [gsaPairLoop, sortKeys, insortKey, alookupI, hlen]

theorem decodeGRS_store (q : ParsedGRS) (st : DecState)
    (h m s ns sys sig mode : Int) (rs : List Int)
    (ht : q.time = TField.good h m s ns)
    (hsys : decodeInt q.system = Except.ok (some sys)) (hsys0 : ¬ sys = 0)
    (hsig : decodeInt q.signal = Except.ok (some sig)) (hsig0 : ¬ sig = 0)
    (hmode : fieldInt q.mode = Except.ok mode)
    (hres : q.residuals.mapM fieldInt = Except.ok rs)
    (hGrs : alookupI sys st.lastGrs = none)
    (hGsa : alookupI sys st.lastGsa = none) :
    decodeGRS q st = (some ⟨⟨h, m, s, ns⟩, mode, rs, sys, sig, none⟩, none,
      { st with lastTime := some ⟨h, m, s, ns⟩, lastDtime := dtRefresh st.lastDtime ⟨h, m, s, ns⟩, lastGrs := ainsertI sys [(sig, rs)] (ainsertI sys [] st.lastGrs) }) := by
  simp only [decodeGRS, ht, hsys, hsig, hmode, hres]
  rw [pyOrInt_some_ne sys 1 hsys0, pyOrInt_some_ne sig 1 hsig0, hGrs]
  rw [hGsa]
  rfl

theorem decodeGRS_pair (q : ParsedGRS) (st : DecState)
    (h m s ns sys sig mode : Int) (rs : List Int) (sl : List GsaView)
    (ht : q.time = TField.good h m s ns)
    (hsys : decodeInt q.system = Except.ok (some sys)) (hsys0 : ¬ sys = 0)
    (hsig : decodeInt q.signal = Except.ok (some sig)) (hsig0 : ¬ sig = 0)
    (hmode : fieldInt q.mode = Except.ok mode)
    (hres : q.residuals.mapM fieldInt = Except.ok rs)
    (hGrs : alookupI sys st.lastGrs = none)
    (hGsa : alookupI sys st.lastGsa = some sl)
    (hslne : ¬ sl = [])
    (hlen : sl.length = rs.length) :
    decodeGRS q st = (some ⟨⟨h, m, s, ns⟩, mode, rs, sys, sig,
      some (List.zipWith mkResidual sl rs)⟩, none,
      { st with lastTime := some ⟨h, m, s, ns⟩, lastDtime := dtRefresh st.lastDtime ⟨h, m, s, ns⟩, lastGrs := ainsertI sys [] st.lastGrs }) := by
  simp only [decodeGRS, ht, hsys, hsig, hmode, hres]
  rw [pyOrInt_some_ne sys 1 hsys0, pyOrInt_some_ne sig 1 hsig0, hGrs]
  rw [hGsa]
  simp [hslne, hlen]

/-- C4 (corrected): for one GSA satellite-list sentence and one GRS
residual sentence for the same navigation system with equal list lengths,
decoding the two in either order yields the same satellite-residual
pairing (each satellite identity zipped with its residual value), with
the pairing performed by whichever sentence is decoded second and no
mismatch error recorded; however, contrary to the claimed cache clearing,
neither decoder clears the caches after pairing: after GSA-then-GRS the
satellite-list cache still holds the list and the residual cache holds
the empty dictionary materialized by setdefault, and after GRS-then-GSA
the residual cache still holds the cached residuals while the
satellite-list cache was never written. -/
theorem claim_C4_residual_pairing
    (pA : ParsedGSA) (qB : ParsedGRS) (st : DecState)
    (sys sig posm mode h m s ns : Int) (pd hd vd : Option Int)
    (sl : List GsaView) (rs : List Int)
    (hAsys : decodeInt pA.system = Except.ok (some sys))
    (hsys0 : ¬ sys = 0)
    (hApos : fieldInt pA.pos_mode = Except.ok posm)
    (hApd : decodeInt pA.pdop = Except.ok pd)
    (hAhd : decodeInt pA.hdop = Except.ok hd)
    (hAvd : decodeInt pA.vdop = Except.ok vd)
    (hAsat : pA.sat_list.mapM makeGsaView = Except.ok sl)
    (hslne : ¬ sl = [])
    (hBt : qB.time = TField.good h m s ns)
    (hBsys : decodeInt qB.system = Except.ok (some sys))
    (hBsig : decodeInt qB.signal = Except.ok (some sig))
    (hsig0 : ¬ sig = 0)
    (hBmode : fieldInt qB.mode = Except.ok mode)
    (hBres : qB.residuals.mapM fieldInt = Except.ok rs)
    (hlen : sl.length = rs.length)
    (hGsa : alookupI sys st.lastGsa = none)
    (hGrs : alookupI sys st.lastGrs = none) :
    (decodeGRS qB (decodeGSA pA st).2.2).1 = some ⟨⟨h, m, s, ns⟩, mode, rs, sys, sig, some (List.zipWith mkResidual sl rs)⟩ ∧
    (decodeGRS qB (decodeGSA pA st).2.2).2.1 = none ∧
    alookupI sys (decodeGRS qB (decodeGSA pA st).2.2).2.2.lastGsa = some sl ∧
    alookupI sys (decodeGRS qB (decodeGSA pA st).2.2).2.2.lastGrs = some [] ∧
    (decodeGSA pA (decodeGRS qB st).2.2).1 = some ⟨pA.acq_mode, posm, sl, pd, hd, vd, sys, [(sig, List.zipWith mkResidual sl rs)]⟩ ∧
    (decodeGSA pA (decodeGRS qB st).2.2).2.1 = none ∧
    alookupI sys (decodeGSA pA (decodeGRS qB st).2.2).2.2.lastGrs = some [(sig, rs)] ∧
    alookupI sys (decodeGSA pA (decodeGRS qB st).2.2).2.2.lastGsa = none := by
  have ha1 := decodeGSA_store pA st sys posm pd hd vd sl hAsys hsys0 hApos hApd hAhd hAvd hAsat hGrs
  have ha2 := decodeGRS_pair qB (decodeGSA pA st).2.2 h m s ns sys sig mode rs sl hBt hBsys hsys0 hBsig hsig0 hBmode hBres (by rw [ha1]; exact hGrs) (by rw [ha1]; exact alookupI_ainsertI_self sys sl st.lastGsa) hslne hlen
  have hb1 := decodeGRS_store qB st h m s ns sys sig mode rs hBt hBsys hsys0 hBsig hsig0 hBmode hBres hGrs hGsa
  have hb2 := decodeGSA_pair pA (decodeGRS qB st).2.2 sys sig posm pd hd vd sl rs hAsys hsys0 hApos hApd hAhd hAvd hAsat (by rw [hb1]; exact alookupI_ainsertI_self sys [(sig, rs)] (ainsertI sys [] st.lastGrs)) hlen.symm
  refine ⟨?_, ?_, ?_, ?_, ?_, ?_, ?_, ?_⟩
  · rw [ha2]
  · rw [ha2]
  · rw [ha2, ha1]
    exact alookupI_ainsertI_self sys sl st.lastGsa
  · rw [ha2, ha1]
    exact alookupI_ainsertI_self sys [] st.lastGrs
  · rw [hb2]
  · rw [hb2]
  · rw [hb2, hb1]
    exact alookupI_ainsertI_self sys [(sig, rs)] (ainsertI sys [] st.lastGrs)
  · rw [hb2, hb1]
    exact hGsa

/-- An initial decoder state with empty caches, for the C4 instances. -/
def c4State : DecState := ⟨none, none, [], [], fun _ => none, none⟩

/-- A concrete parsed GSA sentence for system 1 with two satellites. -/
def c4GSA : ParsedGSA := ⟨Field.empty, Field.num 3, [Field.num 1, Field.num 2], Field.empty, Field.empty, Field.empty, Field.num 1⟩

/-- A concrete parsed GRS sentence for system 1, signal 1, two residuals. -/
def c4GRS : ParsedGRS := ⟨TField.good 1 2 3 4, Field.num 1, [Field.num 7, Field.num 8], Field.num 1, Field.num 1⟩

/-- Counterexample to the claimed cache clearing: after the pairing is
performed (first conjunct shows the paired result), the residual cache
still holds the residuals when GSA paired (second conjunct), and the
satellite-list cache still holds the list when GRS paired (third). -/
theorem claim_C4_counterexample :
    (decodeGSA c4GSA (decodeGRS c4GRS c4State).2.2).1 =
      some ⟨Field.empty, 3, [⟨1, 0, 1⟩, ⟨2, 0, 2⟩], none, none, none, 1, [(1, [⟨1, 0, 1, 7⟩, ⟨2, 0, 2, 8⟩])]⟩ ∧
    ¬ alookupI 1 (decodeGSA c4GSA (decodeGRS c4GRS c4State).2.2).2.2.lastGrs = none ∧
    ¬ alookupI 1 (decodeGRS c4GRS (decodeGSA c4GSA c4State).2.2).2.2.lastGsa = none := by
  exact ⟨by decide, by decide, by decide⟩

/-- Witness for C4 at the concrete sentences: order GSA-then-GRS yields
the paired residuals on the GRS record, with the residual cache holding
the setdefault-materialized empty dictionary. -/
theorem claim_C4_residual_pairing_witness :
    (decodeGRS c4GRS (decodeGSA c4GSA c4State).2.2).1 =
      some ⟨⟨1, 2, 3, 4⟩, 1, [7, 8], 1, 1, some [⟨1, 0, 1, 7⟩, ⟨2, 0, 2, 8⟩]⟩ ∧
    alookupI 1 (decodeGRS c4GRS (decodeGSA c4GSA c4State).2.2).2.2.lastGrs = some [] := by
  have hmain := claim_C4_residual_pairing c4GSA c4GRS c4State 1 1 3 1 1 2 3 4 none none none [⟨1, 0, 1⟩, ⟨2, 0, 2⟩] [7, 8] (by decide) (by decide) (by decide) (by decide) (by decide) (by decide) (by decide) (by decide) (by decide) (by decide) (by decide) (by decide) (by decide) (by decide) (by decide) (by decide) (by decide)
  exact ⟨hmain.1, hmain.2.2.2.1⟩

end Fwgnss
